import Mathlib

/-!
Verification development for the `cc::internal` task-graph scheduler
(`cc/resources/task_graph_runner.cc`).

The embedding is a shallow one:

* A `Task` is identified by a `Nat` id.  The single piece of mutable task
  state the scheduler reads (`did_run_`, set by `Task::DidRun` and read by
  `Task::HasFinishedRunning`) is kept in the runner state as the list
  `didRunTasks` of ids whose flag is `true`.
* `TaskGraph`, `TaskGraph::Node`, `TaskGraph::Edge`, `PrioritizedTask` and
  `TaskNamespace` are translated field by field.  Edges refer to tasks by id
  (the source uses `Task*` pointers; the spec's design notes state the two
  representations are equivalent).
* `TaskGraphRunner`'s mutable state becomes `RunnerState`: the id-keyed
  namespace map is an association list, `ready_to_run_namespaces_` holds
  namespace keys (the source holds `TaskNamespace*`; resolving through the
  id-keyed map is the equivalence the spec's design notes describe), and
  `running_tasks_` is a fixed-length list of optional `(namespace id, task)`
  slots.  A slot also records which namespace the worker's local
  `task_namespace` pointer refers to across the unlocked section.
* `RunTaskWithLockAcquired` releases the lock around the user task body.  It
  is therefore split into the two lock-held halves `BeginRunTask` (everything
  before the unlock) and `FinishRunTask` (everything after the re-lock), so
  that interleavings with other operations are expressible; their composition
  `RunTaskWithLockAcquired` is the uninterrupted call.
* `std::make_heap` / `std::push_heap` / `std::pop_heap` are C++ standard
  library routines, not code of this repository.  They are modelled by their
  specified contract: the range is permuted into / kept in max-heap order
  for the comparator, and `pop_heap` moves the maximum to the back.  We use
  the canonical such permutation, the range sorted descending in heap order
  (for `CompareTaskPriority` this is ascending numeric priority, since lower
  numeric value compares greater); a sorted range is a valid binary heap and
  its front is the heap maximum, so every observable the scheduler relies on
  (element multiset, heap property, which element is popped) agrees with the
  contract.
-/

namespace TaskGraphRunnerModel

/-- A node of a task graph: task id, scheduling priority (lower numeric value
means higher urgency) and the remaining-dependency counter. -/
structure Node where
  task : Nat
  priority : Nat
  dependencies : Nat
deriving Repr, DecidableEq

/-- A dependency edge: when `task` finishes, `dependent`'s counter drops. -/
structure Edge where
  task : Nat
  dependent : Nat
deriving Repr, DecidableEq

/-- `TaskGraph`: plain data carrier of nodes and edges. -/
structure TaskGraph where
  nodes : List Node
  edges : List Edge
deriving Repr, DecidableEq

instance : Inhabited TaskGraph := ⟨⟨[], []⟩⟩

/-- An entry of a namespace's ready-to-run heap. -/
structure PrioritizedTask where
  task : Nat
  priority : Nat
deriving Repr, DecidableEq

/-- Per-client scheduler state (`TaskGraphRunner::TaskNamespace`). -/
structure TaskNamespace where
  graph : TaskGraph
  ready_to_run_tasks : List PrioritizedTask
  completed_tasks : List Nat
  num_running_tasks : Nat
deriving Repr, DecidableEq

instance : Inhabited TaskNamespace := ⟨⟨default, [], [], 0⟩⟩

/-- The scheduler's mutable state (the fields of `TaskGraphRunner` guarded by
`lock_`, plus the tasks' `did_run_` flags). -/
structure RunnerState where
  namespaces : List (Nat × TaskNamespace)
  ready_to_run_namespaces : List Nat
  running_tasks : List (Option (Nat × Nat))
  didRunTasks : List Nat
deriving Repr, DecidableEq

/-- Modelled from the spec: `CompareTaskPriority` is declared in
`cc/resources/task_graph_runner.h`, which is not part of this source tree.
The spec defines it as `a < b` iff `a.priority > b.priority` (a max-heap for
it has the smallest numeric priority value on top). -/
def CompareTaskPriority (a b : PrioritizedTask) : Bool :=
  b.priority < a.priority

/-- Modelled from the spec: `HasFinishedRunningTasksInNamespace` is declared
in the missing header; the spec (and the `DCHECK`s of
`CollectCompletedTasks`) define it as: empty ready heap, no running tasks,
and no graph nodes. -/
def HasFinishedRunningTasksInNamespace (ns : TaskNamespace) : Bool :=
  ns.ready_to_run_tasks.isEmpty && ns.num_running_tasks == 0 &&
    ns.graph.nodes.isEmpty

/-- Decrement of the `unsigned` field `dependencies` (`node.dependencies--`):
on 0 a C++ unsigned wraps around to `2^32 - 1`. -/
def dec32 (n : Nat) : Nat :=
  if n = 0 then 4294967295 else n - 1

/-- The node-locating and decrementing step shared by the discount loop and
the dependent fan-out: find the first node whose task is `d` (as
`DependentIterator` does with `std::find_if` and `TaskComparator`), decrement
its `dependencies`, and also report the updated node (so callers can test
whether it became ready).  If no node matches, nothing happens (the source
`DCHECK`s that the node exists). -/
def decDependent : List Node → Nat → List Node × Option Node
  | [], _ => ([], none)
  | n :: ns, d =>
    if n.task = d then
      let n' : Node := { n with dependencies := dec32 n.dependencies }
      (n' :: ns, some n')
    else
      let r := decDependent ns d
      (n :: r.1, r.2)

/-- One completed task's discount pass (`DependentIterator` over the new
graph with the completed task as source): every edge whose source is `t`
decrements its dependent's counter. -/
def DiscountCompletedTask (g : TaskGraph) (t : Nat) : TaskGraph :=
  { g with
    nodes := g.edges.foldl
      (fun nodes e => if e.task = t then (decDependent nodes e.dependent).1 else nodes)
      g.nodes }

/-- The discount phase of `SetTaskGraph` (lines 205-214): iterate the
namespace's uncollected `completed_tasks` and discount each against the new
graph. -/
def DiscountGraph (g : TaskGraph) (completed : List Nat) : TaskGraph :=
  completed.foldl DiscountCompletedTask g

/-- Removal of the old-graph node for a task carried over into the new graph
(lines 226-233): find it, swap it with the back, and pop the back. -/
def removeTaskSwap (nodes : List Node) (t : Nat) : List Node :=
  match nodes.getLast? with
  | none => nodes
  | some lastN =>
    match nodes.findIdx? (fun n => n.task = t) with
    | none => nodes
    | some i => (nodes.set i lastN).dropLast

/-- The task ids currently installed in `running_tasks_` slots. -/
def runningTaskIds (slots : List (Option (Nat × Nat))) : List Nat :=
  slots.filterMap (fun o => o.map Prod.snd)

/-- The eligibility test of the build loop (lines 236-246): dependencies
exhausted, not finished running, not currently running on any worker. -/
def readyPred (didRun running : List Nat) (n : Node) : Bool :=
  n.dependencies = 0 && !(didRun.contains n.task) && !(running.contains n.task)

/-- The cancellation test (lines 268-274): not finished running and not
currently running on any worker. -/
def cancelPred (didRun running : List Nat) (n : Node) : Bool :=
  !(didRun.contains n.task) && !(running.contains n.task)

/-- One iteration of the build loop of `SetTaskGraph` (lines 218-250): remove
the node's task from the old graph, then push `{task, priority}` onto the new
ready vector when the (already discounted) dependency count is zero, the task
has not finished running, and the task is not in any running slot. -/
def buildStep (didRun running : List Nat) (acc : List Node × List PrioritizedTask)
    (n : Node) : List Node × List PrioritizedTask :=
  let old' := removeTaskSwap acc.1 n.task
  if readyPred didRun running n then
    (old', acc.2 ++ [⟨n.task, n.priority⟩])
  else
    (old', acc.2)

/-- The build loop of `SetTaskGraph`: returns the remnant of the old graph's
nodes (the tasks to cancel) and the ready entries in push order. -/
def BuildReadyAndRemove (g : TaskGraph) (oldNodes : List Node)
    (didRun running : List Nat) : List Node × List PrioritizedTask :=
  g.nodes.foldl (buildStep didRun running) (oldNodes, [])

/-- Sorted insertion for the ready heap model: keeps the list ascending by
numeric priority, i.e. descending in `CompareTaskPriority` order. -/
def insertPT (p : PrioritizedTask) : List PrioritizedTask → List PrioritizedTask
  | [] => [p]
  | q :: l => if p.priority < q.priority then p :: q :: l else q :: insertPT p l

/-- Model of `std::make_heap(..., CompareTaskPriority)` by its contract: a
permutation of the input in heap order; canonically, sorted ascending by
numeric priority. -/
def MakeTaskHeap (l : List PrioritizedTask) : List PrioritizedTask :=
  l.foldl (fun acc p => insertPT p acc) []

/-- The priority of a namespace's current head ready task (the key
`CompareTaskNamespacePriority` compares; it is only consulted for namespaces
with non-empty ready heaps). -/
def HeadTaskPriority (ns : TaskNamespace) : Nat :=
  match ns.ready_to_run_tasks with
  | [] => 0
  | p :: _ => p.priority

/-- Modelled from the spec: `CompareTaskNamespacePriority` is declared in the
missing header; the spec defines it as comparing the priorities of the two
namespaces' current head ready tasks with `CompareTaskPriority`.  Here the
namespaces are resolved through the id-keyed map. -/
def CompareTaskNamespacePriority (m : List (Nat × TaskNamespace)) (a b : Nat) : Bool :=
  CompareTaskPriority
    ⟨a, HeadTaskPriority ((m.lookup a).getD default)⟩
    ⟨b, HeadTaskPriority ((m.lookup b).getD default)⟩

/-- The sort key a namespace id contributes to the ready-namespaces heap. -/
def NamespaceKey (m : List (Nat × TaskNamespace)) (tk : Nat) : Nat :=
  HeadTaskPriority ((m.lookup tk).getD default)

/-- Sorted insertion for the ready-namespaces heap model (model of
`std::push_heap(..., CompareTaskNamespacePriority)`). -/
def insertTok (m : List (Nat × TaskNamespace)) (tk : Nat) : List Nat → List Nat
  | [] => [tk]
  | u :: l => if NamespaceKey m tk < NamespaceKey m u then tk :: u :: l else u :: insertTok m tk l

/-- Model of `std::make_heap(..., CompareTaskNamespacePriority)` by its
contract, as for `MakeTaskHeap`. -/
def MakeNamespaceHeap (m : List (Nat × TaskNamespace)) (l : List Nat) : List Nat :=
  l.foldl (fun acc tk => insertTok m tk acc) []

/-- Replace the value stored for key `tk` (in-place mutation of the
`TaskNamespace` the map owns). -/
def updateNs (m : List (Nat × TaskNamespace)) (tk : Nat) (ns : TaskNamespace) :
    List (Nat × TaskNamespace) :=
  m.map (fun q => if q.1 = tk then (tk, ns) else q)

/-- The namespace contents `SetTaskGraph` stores back for the token: the
discounted new graph (the swap leaves the old remnant and the old edges in
the caller's argument), the rebuilt ready heap, and the completed queue
extended with the cancelled remnant tasks. -/
def SetTaskGraphNamespace (s : RunnerState) (tok : Nat) (g : TaskGraph) : TaskNamespace :=
  let ns0 := ((s.namespaces.lookup tok).getD default)
  let g1 := DiscountGraph g ns0.completed_tasks
  let br := BuildReadyAndRemove g1 ns0.graph.nodes s.didRunTasks (runningTaskIds s.running_tasks)
  let appended :=
    (br.1.filter (cancelPred s.didRunTasks (runningTaskIds s.running_tasks))).map Node.task
  { graph := g1
    ready_to_run_tasks := MakeTaskHeap br.2
    completed_tasks := ns0.completed_tasks ++ appended
    num_running_tasks := ns0.num_running_tasks }

/-- `TaskGraphRunner::SetTaskGraph` (lines 183-300).  Steps, as in the
source: take (or create) the namespace; discount the new graph's dependency
counts by the uncollected completed tasks; walk the new graph's nodes,
removing carried-over tasks from the old graph and collecting the ready
entries; heapify them; swap the graphs (the namespace keeps the discounted
new graph, the remnant of the old one is what gets cancelled); append every
remnant task that has neither finished nor is currently running to
`completed_tasks`; store the namespace back; rebuild the ready-namespaces
heap from all namespaces with non-empty ready heaps. -/
def SetTaskGraph (s : RunnerState) (tok : Nat) (g : TaskGraph) : RunnerState :=
  let m1 := (s.namespaces.eraseP (fun q => q.1 == tok)) ++
    [(tok, SetTaskGraphNamespace s tok g)]
  let rtrn := MakeNamespaceHeap m1
    ((m1.filter (fun q => !q.2.ready_to_run_tasks.isEmpty)).map Prod.fst)
  { s with namespaces := m1, ready_to_run_namespaces := rtrn }

/-- The first lock-held half of `TaskGraphRunner::RunTaskWithLockAcquired`
(lines 365-407): pop the top namespace off the ready-namespaces heap, pop its
top task, push the namespace back iff it still has ready tasks, install the
task in the worker's slot, bump `num_running_tasks`, and call
`Task::WillRun` (assertion only, no state change).  Guard conditions the
source `DCHECK`s (non-empty heaps, empty slot) make the call a no-op here. -/
def BeginRunTask (s : RunnerState) (i : Nat) : RunnerState :=
  match s.ready_to_run_namespaces with
  | [] => s
  | tk :: rest =>
    match s.namespaces.lookup tk with
    | none => s
    | some ns =>
      match ns.ready_to_run_tasks with
      | [] => s
      | p :: restReady =>
        if s.running_tasks.get? i = some none then
          let ns' : TaskNamespace :=
            { ns with
              ready_to_run_tasks := restReady
              num_running_tasks := ns.num_running_tasks + 1 }
          let m' := updateNs s.namespaces tk ns'
          let rtrn' := if restReady.isEmpty then rest else insertTok m' tk rest
          { s with
            namespaces := m'
            ready_to_run_namespaces := rtrn'
            running_tasks := s.running_tasks.set i (some (tk, p.task)) }
        else s

/-- The dependent fan-out of `RunTaskWithLockAcquired` (lines 425-451):
iterate the namespace graph's edges with the finished task as source,
decrement each dependent's counter, and record (in push order) the dependents
whose counter reached zero. -/
def FanOut (g : TaskGraph) (t : Nat) : List Node × List PrioritizedTask :=
  g.edges.foldl
    (fun acc e =>
      if e.task = t then
        let r := decDependent acc.1 e.dependent
        match r.2 with
        | some n' =>
          if n'.dependencies = 0 then (r.1, acc.2 ++ [⟨n'.task, n'.priority⟩])
          else (r.1, acc.2)
        | none => (r.1, acc.2)
      else acc)
    (g.nodes, [])

/-- The namespace contents after the post-run half: fanned-out graph nodes,
ready heap with the newly ready dependents pushed, the finished task
appended to the completed queue, and one less running task. -/
def FinishRunTaskNamespace (ns : TaskNamespace) (t : Nat) : TaskNamespace :=
  { graph := { ns.graph with nodes := (FanOut ns.graph t).1 }
    ready_to_run_tasks :=
      (FanOut ns.graph t).2.foldl (fun acc p => insertPT p acc) ns.ready_to_run_tasks
    completed_tasks := ns.completed_tasks ++ [t]
    num_running_tasks := ns.num_running_tasks - 1 }

/-- The second lock-held half of `RunTaskWithLockAcquired` (lines 415-467),
entered after the user task body ran with the lock released: mark the task as
having run (`DidRun`), decrement `num_running_tasks`, clear the worker slot,
fan out to dependents (pushing newly ready tasks onto the ready heap and,
when the heap was empty, appending the namespace to the ready-namespaces
vector), re-heapify the ready-namespaces vector if it was perturbed, and
append the task to `completed_tasks`. -/
def FinishRunTask (s : RunnerState) (i : Nat) : RunnerState :=
  match s.running_tasks.get? i with
  | some (some (tk, t)) =>
    (match s.namespaces.lookup tk with
     | none => s
     | some ns =>
       let didRun' := if s.didRunTasks.contains t then s.didRunTasks else s.didRunTasks ++ [t]
       let m' := updateNs s.namespaces tk (FinishRunTaskNamespace ns t)
       let rtrnMid :=
         if ns.ready_to_run_tasks.isEmpty && !(FanOut ns.graph t).2.isEmpty then
           s.ready_to_run_namespaces ++ [tk]
         else s.ready_to_run_namespaces
       let rtrn' := if (FanOut ns.graph t).2.isEmpty then rtrnMid
         else MakeNamespaceHeap m' rtrnMid
       { s with
         namespaces := m'
         ready_to_run_namespaces := rtrn'
         running_tasks := s.running_tasks.set i none
         didRunTasks := didRun' })
  | _ => s

/-- `TaskGraphRunner::RunTaskWithLockAcquired` run to completion with no
interleaving: the two halves composed. -/
def RunTaskWithLockAcquired (s : RunnerState) (i : Nat) : RunnerState :=
  FinishRunTask (BeginRunTask s i) i

/-- `TaskGraphRunner::CollectCompletedTasks` (lines 302-328): if the
namespace is absent, return with the (empty) out-vector unchanged; otherwise
swap `completed_tasks` into the out-vector and erase the namespace iff it has
finished running all tasks. -/
def CollectCompletedTasks (s : RunnerState) (tok : Nat) : RunnerState × List Nat :=
  match s.namespaces.lookup tok with
  | none => (s, [])
  | some ns =>
    let out := ns.completed_tasks
    let ns' : TaskNamespace := { ns with completed_tasks := [] }
    if HasFinishedRunningTasksInNamespace ns' then
      ({ s with namespaces := s.namespaces.eraseP (fun q => q.1 == tok) }, out)
    else
      ({ s with namespaces := updateNs s.namespaces tok ns' }, out)

/-- `TaskGraphRunner::WaitForTasksToFinishRunning` (lines 160-181).  The
condition-variable loop is modelled by the sequence of namespace snapshots
the waiter observes at successive wakeups: if the namespace is absent the
call returns immediately (result `some none`); otherwise it returns at the
first observed snapshot satisfying `HasFinishedRunningTasksInNamespace`
(result `some (some snapshot)`), and blocks forever if there is none
(result `none`). -/
def WaitForTasksToFinishRunning (s : RunnerState) (tok : Nat)
    (wakeups : List TaskNamespace) : Option (Option TaskNamespace) :=
  match s.namespaces.lookup tok with
  | none => some none
  | some ns =>
    if HasFinishedRunningTasksInNamespace ns then some (some ns)
    else (wakeups.find? HasFinishedRunningTasksInNamespace).map some

/-- The freshly constructed runner (lines 101-127): no namespaces, no ready
namespaces, `max(num_threads, 1)` empty running slots, no task has run. -/
def initState (numThreads : Nat) : RunnerState :=
  { namespaces := []
    ready_to_run_namespaces := []
    running_tasks := List.replicate (max numThreads 1) none
    didRunTasks := [] }

/-- One lock-held scheduler operation.  `BeginRunTask` and `FinishRunTask`
are separate steps, so states in which workers are mid-run (with the lock
released) are reachable and other operations can interleave there. -/
inductive SchedulerStep : RunnerState → RunnerState → Prop where
  | set_graph : ∀ s tok g, tok ≠ 0 → SchedulerStep s (SetTaskGraph s tok g)
  | begin_run : ∀ s i, SchedulerStep s (BeginRunTask s i)
  | finish_run : ∀ s i, SchedulerStep s (FinishRunTask s i)
  | collect : ∀ s tok, SchedulerStep s (CollectCompletedTasks s tok).1

/-- States reachable from a fresh runner with `w` worker threads. -/
def Reachable (w : Nat) (s : RunnerState) : Prop :=
  Relation.ReflTransGen SchedulerStep (initState w) s

/-- The namespace stored for `tok`, or a fresh one if absent (the
take-or-create step of `SetTaskGraph`). -/
def namespaceFor (s : RunnerState) (tok : Nat) : TaskNamespace :=
  (s.namespaces.lookup tok).getD default

/-! A concrete contract-respecting execution of the scheduler API (every
submitted graph is acyclic, has duplicate-free tasks, edge endpoints among
its nodes, and per-node dependency counts equal to the incoming edge
counts): submit the one-task graph `{10}`; supersede it with the empty
graph, which cancels task 10 into the still-uncollected completed queue
with `did_run` = false; resubmit a graph containing task 10 again together
with a dependent task 11 (edge 10 → 11, so 11 is submitted with one
dependency).  The discount loop of the third submission treats the
cancelled-but-never-run task 10 as if it had finished and zeroes node 11's
counter, and both tasks enter the ready heap.  Running task 10 then fans
out over edge 10 → 11 and decrements node 11's counter a second time —
at value zero. -/

def cancelResubmitG1 : TaskGraph := ⟨[⟨10, 0, 0⟩], []⟩

def cancelResubmitG2 : TaskGraph := ⟨[], []⟩

def cancelResubmitG3 : TaskGraph := ⟨[⟨10, 0, 0⟩, ⟨11, 1, 1⟩], [⟨10, 11⟩]⟩

def cancelResubmitS1 : RunnerState := SetTaskGraph (initState 1) 1 cancelResubmitG1

def cancelResubmitS2 : RunnerState := SetTaskGraph cancelResubmitS1 1 cancelResubmitG2

def cancelResubmitS3 : RunnerState := SetTaskGraph cancelResubmitS2 1 cancelResubmitG3

def cancelResubmitS4 : RunnerState := RunTaskWithLockAcquired cancelResubmitS3 0

/-- The ready-namespaces bookkeeping invariant: namespace keys are unique,
`ready_to_run_namespaces_` holds no duplicates, each of its members is a
namespace with a non-empty ready heap, and every namespace with a non-empty
ready heap is in it. -/
def SchedulerInv (s : RunnerState) : Prop :=
  (s.namespaces.map Prod.fst).Nodup ∧
  s.ready_to_run_namespaces.Nodup ∧
  (∀ tk ∈ s.ready_to_run_namespaces,
    ∃ ns, s.namespaces.lookup tk = some ns ∧ ns.ready_to_run_tasks ≠ []) ∧
  (∀ tk ns, s.namespaces.lookup tk = some ns → ns.ready_to_run_tasks ≠ [] →
    tk ∈ s.ready_to_run_namespaces)

/-- The ready vector in heap order, i.e. sorted ascending by numeric
priority (descending in `CompareTaskPriority` order, maximum first). -/
def ptSorted (l : List PrioritizedTask) : Prop :=
  List.Pairwise (fun a b => a.priority ≤ b.priority) l

instance (l : List PrioritizedTask) : Decidable (ptSorted l) :=
  inferInstanceAs (Decidable (List.Pairwise _ l))

/-- The ready-namespaces vector in heap order for the current keys. -/
def tokSorted (m : List (Nat × TaskNamespace)) (l : List Nat) : Prop :=
  List.Pairwise (fun a b => NamespaceKey m a ≤ NamespaceKey m b) l

instance (m : List (Nat × TaskNamespace)) (l : List Nat) : Decidable (tokSorted m l) :=
  inferInstanceAs (Decidable (List.Pairwise _ l))

/-- The binary-heap property for `CompareTaskPriority` on the flat vector
representation `std::make_heap` establishes: no parent compares less than
either of its children. -/
def IsHeapOrdered (l : List PrioritizedTask) : Prop :=
  ∀ i j : Fin l.length, (j.val = 2 * i.val + 1 ∨ j.val = 2 * i.val + 2) →
    CompareTaskPriority (l.get i) (l.get j) = false

/-- The number of edges from `t` into the node with task `d`. -/
def edgeCount (edges : List Edge) (t d : Nat) : Nat :=
  edges.countP (fun e => e.task = t && e.dependent = d)

/-- The total number of discount decrements the node with task `d` receives
from the uncollected completed tasks. -/
def discountAmount (edges : List Edge) (completed : List Nat) (d : Nat) : Nat :=
  (completed.map (fun t => edgeCount edges t d)).sum

/-! ### Association-list lemmas for the namespace map -/

theorem lookup_cons_self {k : Nat} {v : TaskNamespace} {m : List (Nat × TaskNamespace)} :
    ((k, v) :: m).lookup k = some v := by
  simp [List.lookup]

theorem lookup_cons_ne {k tk : Nat} {v : TaskNamespace} {m : List (Nat × TaskNamespace)}
    (h : tk ≠ k) : ((k, v) :: m).lookup tk = m.lookup tk := by
  have hb : (tk == k) = false := beq_eq_false_iff_ne.mpr h
  simp [List.lookup, hb]

theorem lookup_eq_some_of_mem {m : List (Nat × TaskNamespace)} {tk : Nat}
    {ns : TaskNamespace} (hnd : (m.map Prod.fst).Nodup) (hm : (tk, ns) ∈ m) :
    m.lookup tk = some ns := by
  induction m with
  | nil => cases hm
  | cons q m ih =>
    obtain ⟨k, v⟩ := q
    simp only [List.map_cons, List.nodup_cons] at hnd
    rcases List.mem_cons.mp hm with h | hm'
    · cases h
      exact lookup_cons_self
    · have hne : tk ≠ k := by
        rintro rfl
        exact hnd.1 (List.mem_map_of_mem Prod.fst hm')
      rw [lookup_cons_ne hne]
      exact ih hnd.2 hm'

theorem mem_of_lookup_eq_some {m : List (Nat × TaskNamespace)} {tk : Nat}
    {ns : TaskNamespace} (h : m.lookup tk = some ns) : (tk, ns) ∈ m := by
  induction m with
  | nil => simp [List.lookup] at h
  | cons q m ih =>
    obtain ⟨k, v⟩ := q
    by_cases hk : tk = k
    · subst hk
      rw [lookup_cons_self] at h
      cases h
      exact List.mem_cons_self _ _
    · rw [lookup_cons_ne hk] at h
      exact List.mem_cons_of_mem _ (ih h)

theorem lookup_eq_none_of_not_mem_keys {m : List (Nat × TaskNamespace)} {tk : Nat}
    (h : tk ∉ m.map Prod.fst) : m.lookup tk = none := by
  induction m with
  | nil => rfl
  | cons q m ih =>
    obtain ⟨k, v⟩ := q
    simp only [List.map_cons, List.mem_cons] at h
    push_neg at h
    rw [lookup_cons_ne h.1]
    exact ih h.2

theorem updateNs_cons_self {k : Nat} {v ns : TaskNamespace} {m : List (Nat × TaskNamespace)} :
    updateNs ((k, v) :: m) k ns = (k, ns) :: updateNs m k ns := by
  simp [updateNs]

theorem updateNs_cons_ne {k tk : Nat} {v : TaskNamespace} {m : List (Nat × TaskNamespace)}
    (h : k ≠ tk) (ns : TaskNamespace) :
    updateNs ((k, v) :: m) tk ns = (k, v) :: updateNs m tk ns := by
  simp [updateNs, h]

theorem lookup_updateNs_self {m : List (Nat × TaskNamespace)} {tk : Nat}
    {ns0 : TaskNamespace} (h : m.lookup tk = some ns0) (ns : TaskNamespace) :
    (updateNs m tk ns).lookup tk = some ns := by
  induction m with
  | nil => simp [List.lookup] at h
  | cons q m ih =>
    obtain ⟨k, v⟩ := q
    by_cases hk : tk = k
    · subst hk
      rw [updateNs_cons_self, lookup_cons_self]
    · rw [lookup_cons_ne hk] at h
      rw [updateNs_cons_ne (fun hh => hk hh.symm), lookup_cons_ne hk]
      exact ih h

theorem lookup_updateNs_ne {m : List (Nat × TaskNamespace)} {tk tk' : Nat}
    (hne : tk' ≠ tk) (ns : TaskNamespace) :
    (updateNs m tk ns).lookup tk' = m.lookup tk' := by
  induction m with
  | nil => rfl
  | cons q m ih =>
    obtain ⟨k, v⟩ := q
    by_cases hk : k = tk
    · subst hk
      rw [updateNs_cons_self, lookup_cons_ne hne, lookup_cons_ne hne]
      exact ih
    · rw [updateNs_cons_ne hk]
      by_cases h2 : tk' = k
      · subst h2
        rw [lookup_cons_self, lookup_cons_self]
      · rw [lookup_cons_ne h2, lookup_cons_ne h2]
        exact ih

theorem map_fst_updateNs (m : List (Nat × TaskNamespace)) (tk : Nat)
    (ns : TaskNamespace) : (updateNs m tk ns).map Prod.fst = m.map Prod.fst := by
  induction m with
  | nil => rfl
  | cons q m ih =>
    obtain ⟨k, v⟩ := q
    by_cases hk : k = tk
    · subst hk
      rw [updateNs_cons_self]
      simp only [List.map_cons]
      rw [ih]
    · rw [updateNs_cons_ne hk]
      simp only [List.map_cons]
      rw [ih]

theorem erasePKey_cons_self {k : Nat} {v : TaskNamespace} {m : List (Nat × TaskNamespace)} :
    ((k, v) :: m).eraseP (fun q => q.1 == k) = m := by
  simp [List.eraseP_cons]

theorem erasePKey_cons_ne {k tok : Nat} {v : TaskNamespace} {m : List (Nat × TaskNamespace)}
    (h : k ≠ tok) :
    ((k, v) :: m).eraseP (fun q => q.1 == tok) = (k, v) :: m.eraseP (fun q => q.1 == tok) := by
  have hb : (k == tok) = false := beq_eq_false_iff_ne.mpr h
  simp [List.eraseP_cons, hb]

theorem lookup_erasePKey_ne {m : List (Nat × TaskNamespace)} {tok tk : Nat}
    (hne : tk ≠ tok) : (m.eraseP (fun q => q.1 == tok)).lookup tk = m.lookup tk := by
  induction m with
  | nil => rfl
  | cons q m ih =>
    obtain ⟨k, v⟩ := q
    by_cases hk : k = tok
    · subst hk
      rw [erasePKey_cons_self, lookup_cons_ne hne]
    · rw [erasePKey_cons_ne hk]
      by_cases h2 : tk = k
      · subst h2
        rw [lookup_cons_self, lookup_cons_self]
      · rw [lookup_cons_ne h2, lookup_cons_ne h2]
        exact ih

theorem not_mem_keys_erasePKey {m : List (Nat × TaskNamespace)} {tok : Nat}
    (hnd : (m.map Prod.fst).Nodup) :
    tok ∉ (m.eraseP (fun q => q.1 == tok)).map Prod.fst := by
  induction m with
  | nil => simp
  | cons q m ih =>
    obtain ⟨k, v⟩ := q
    simp only [List.map_cons, List.nodup_cons] at hnd
    by_cases hk : k = tok
    · subst hk
      rw [erasePKey_cons_self]
      exact hnd.1
    · rw [erasePKey_cons_ne hk]
      simp only [List.map_cons, List.mem_cons]
      push_neg
      exact ⟨fun h => hk h.symm, ih hnd.2⟩

theorem lookup_erasePKey_self {m : List (Nat × TaskNamespace)} {tok : Nat}
    (hnd : (m.map Prod.fst).Nodup) :
    (m.eraseP (fun q => q.1 == tok)).lookup tok = none :=
  lookup_eq_none_of_not_mem_keys (not_mem_keys_erasePKey hnd)

theorem lookup_append_of_none {m1 m2 : List (Nat × TaskNamespace)} {tk : Nat}
    (h : m1.lookup tk = none) : (m1 ++ m2).lookup tk = m2.lookup tk := by
  induction m1 with
  | nil => rfl
  | cons q m ih =>
    obtain ⟨k, v⟩ := q
    by_cases hk : tk = k
    · subst hk
      rw [lookup_cons_self] at h
      cases h
    · rw [lookup_cons_ne hk] at h
      rw [List.cons_append, lookup_cons_ne hk]
      exact ih h

theorem lookup_append_of_some {m1 m2 : List (Nat × TaskNamespace)} {tk : Nat}
    {ns : TaskNamespace} (h : m1.lookup tk = some ns) :
    (m1 ++ m2).lookup tk = some ns := by
  induction m1 with
  | nil => simp [List.lookup] at h
  | cons q m ih =>
    obtain ⟨k, v⟩ := q
    by_cases hk : tk = k
    · subst hk
      rw [lookup_cons_self] at h
      rw [List.cons_append, lookup_cons_self]
      exact h
    · rw [lookup_cons_ne hk] at h
      rw [List.cons_append, lookup_cons_ne hk]
      exact ih h

theorem keys_erasePKey_nodup {m : List (Nat × TaskNamespace)} {tok : Nat}
    (hnd : (m.map Prod.fst).Nodup) :
    ((m.eraseP (fun q => q.1 == tok)).map Prod.fst).Nodup :=
  List.Nodup.sublist (List.Sublist.map Prod.fst (List.eraseP_sublist m)) hnd

theorem contains_false_iff (l : List Nat) (a : Nat) : (l.contains a = false) ↔ a ∉ l := by
  rw [← Bool.not_eq_true]
  exact not_congr List.elem_iff

/-! ### Heap-model lemmas -/

theorem insertPT_perm (p : PrioritizedTask) (l : List PrioritizedTask) :
    (insertPT p l).Perm (p :: l) := by
  induction l with
  | nil => exact List.Perm.refl _
  | cons q l ih =>
    by_cases h : p.priority < q.priority
    · simp only [insertPT, if_pos h]
      exact List.Perm.refl _
    · simp only [insertPT, if_neg h]
      exact (ih.cons q).trans (List.Perm.swap p q l)

theorem insertPT_sorted {l : List PrioritizedTask} (hs : ptSorted l)
    (p : PrioritizedTask) : ptSorted (insertPT p l) := by
  induction l with
  | nil => simp [insertPT, ptSorted]
  | cons q l ih =>
    rw [ptSorted, List.pairwise_cons] at hs
    by_cases h : p.priority < q.priority
    · simp only [insertPT, if_pos h]
      rw [ptSorted, List.pairwise_cons]
      refine ⟨?_, ?_⟩
      · intro x hx
        rcases List.mem_cons.mp hx with rfl | hx'
        · exact Nat.le_of_lt h
        · exact Nat.le_trans (Nat.le_of_lt h) (hs.1 x hx')
      · rw [ptSorted, List.pairwise_cons] at *
        exact ⟨hs.1, hs.2⟩
    · simp only [insertPT, if_neg h]
      rw [ptSorted, List.pairwise_cons]
      refine ⟨?_, ih hs.2⟩
      intro x hx
      rcases List.mem_cons.mp ((insertPT_perm p l).mem_iff.mp hx) with rfl | hx'
      · exact Nat.le_of_not_lt h
      · exact hs.1 x hx'

theorem foldl_insertPT_perm (l : List PrioritizedTask) (acc : List PrioritizedTask) :
    (l.foldl (fun acc p => insertPT p acc) acc).Perm (acc ++ l) := by
  induction l generalizing acc with
  | nil => simp
  | cons p l ih =>
    refine (ih (insertPT p acc)).trans ?_
    refine (List.Perm.append_right l (insertPT_perm p acc)).trans ?_
    exact List.perm_middle.symm

theorem foldl_insertPT_sorted (l : List PrioritizedTask) {acc : List PrioritizedTask}
    (hs : ptSorted acc) : ptSorted (l.foldl (fun acc p => insertPT p acc) acc) := by
  induction l generalizing acc with
  | nil => exact hs
  | cons p l ih => exact ih (insertPT_sorted hs p)

theorem MakeTaskHeap_perm (l : List PrioritizedTask) : (MakeTaskHeap l).Perm l :=
  (foldl_insertPT_perm l []).trans (by simp)

theorem MakeTaskHeap_sorted (l : List PrioritizedTask) : ptSorted (MakeTaskHeap l) :=
  foldl_insertPT_sorted l (by simp [ptSorted])

theorem insertTok_perm (m : List (Nat × TaskNamespace)) (tk : Nat) (l : List Nat) :
    (insertTok m tk l).Perm (tk :: l) := by
  induction l with
  | nil => exact List.Perm.refl _
  | cons u l ih =>
    by_cases h : NamespaceKey m tk < NamespaceKey m u
    · simp only [insertTok, if_pos h]
      exact List.Perm.refl _
    · simp only [insertTok, if_neg h]
      exact (ih.cons u).trans (List.Perm.swap tk u l)

theorem insertTok_sorted {m : List (Nat × TaskNamespace)} {l : List Nat}
    (hs : tokSorted m l) (tk : Nat) : tokSorted m (insertTok m tk l) := by
  induction l with
  | nil => simp [insertTok, tokSorted]
  | cons u l ih =>
    rw [tokSorted, List.pairwise_cons] at hs
    by_cases h : NamespaceKey m tk < NamespaceKey m u
    · simp only [insertTok, if_pos h]
      rw [tokSorted, List.pairwise_cons]
      refine ⟨?_, ?_⟩
      · intro x hx
        rcases List.mem_cons.mp hx with rfl | hx'
        · exact Nat.le_of_lt h
        · exact Nat.le_trans (Nat.le_of_lt h) (hs.1 x hx')
      · rw [tokSorted, List.pairwise_cons] at *
        exact ⟨hs.1, hs.2⟩
    · simp only [insertTok, if_neg h]
      rw [tokSorted, List.pairwise_cons]
      refine ⟨?_, ih hs.2⟩
      intro x hx
      rcases List.mem_cons.mp ((insertTok_perm m tk l).mem_iff.mp hx) with rfl | hx'
      · exact Nat.le_of_not_lt h
      · exact hs.1 x hx'

theorem foldl_insertTok_perm (m : List (Nat × TaskNamespace)) (l : List Nat)
    (acc : List Nat) :
    (l.foldl (fun acc tk => insertTok m tk acc) acc).Perm (acc ++ l) := by
  induction l generalizing acc with
  | nil => simp
  | cons tk l ih =>
    refine (ih (insertTok m tk acc)).trans ?_
    refine (List.Perm.append_right l (insertTok_perm m tk acc)).trans ?_
    exact List.perm_middle.symm

theorem MakeNamespaceHeap_perm (m : List (Nat × TaskNamespace)) (l : List Nat) :
    (MakeNamespaceHeap m l).Perm l :=
  (foldl_insertTok_perm m l []).trans (by simp)

theorem foldl_insertTok_sorted (m : List (Nat × TaskNamespace)) (l : List Nat)
    {acc : List Nat} (hs : tokSorted m acc) :
    tokSorted m (l.foldl (fun acc tk => insertTok m tk acc) acc) := by
  induction l generalizing acc with
  | nil => exact hs
  | cons tk l ih => exact ih (insertTok_sorted hs tk)

theorem MakeNamespaceHeap_sorted (m : List (Nat × TaskNamespace)) (l : List Nat) :
    tokSorted m (MakeNamespaceHeap m l) :=
  foldl_insertTok_sorted m l (by simp [tokSorted])

theorem ptSorted_isHeapOrdered {l : List PrioritizedTask} (hs : ptSorted l) :
    IsHeapOrdered l := by
  intro i j hj
  have hij : i < j := by
    rcases hj with h | h <;> (apply Fin.lt_def.mpr; omega)
  have hle : (l.get i).priority ≤ (l.get j).priority :=
    (List.pairwise_iff_get.mp hs) i j hij
  simp only [CompareTaskPriority]
  exact decide_eq_false (Nat.not_lt.mpr hle)

/-! ### Lemmas about the swap-with-back removal and the build loop -/

theorem findIdx_decomp (p : Node → Bool) (A : List Node) (x : Node) (B : List Node)
    (hA : ∀ b ∈ A, p b = false) (hx : p x = true) :
    List.findIdx p (A ++ x :: B) = A.length := by
  induction A with
  | nil => simp [List.findIdx_cons, hx]
  | cons a A ih =>
    have ha : p a = false := hA a (List.mem_cons_self a A)
    simp only [List.cons_append, List.findIdx_cons, ha, cond_false, List.length_cons]
    rw [ih (fun b hb => hA b (List.mem_cons_of_mem a hb))]

theorem removeTaskSwap_eq {nodes : List Node} {t : Nat} {z : Node} {i : Nat}
    (h1 : nodes.getLast? = some z)
    (h2 : nodes.findIdx? (fun n => n.task = t) = some i) :
    removeTaskSwap nodes t = (nodes.set i z).dropLast := by
  rw [removeTaskSwap, h1, h2]

theorem removeTaskSwap_of_not_found {nodes : List Node} {t : Nat}
    (h : nodes.findIdx? (fun n => n.task = t) = none) :
    removeTaskSwap nodes t = nodes := by
  rcases hl : nodes.getLast? with _ | z
  · rw [removeTaskSwap, hl]
  · rw [removeTaskSwap, hl, h]

/-- `removeTaskSwap` removes exactly the first node with the given task, up
to a permutation (the swap moves the former back element into its slot). -/
theorem removeTaskSwap_perm (nodes : List Node) (t : Nat) :
    (removeTaskSwap nodes t).Perm (nodes.eraseP (fun n => n.task = t)) := by
  by_cases hex : ∃ n ∈ nodes, n.task = t
  · obtain ⟨w, hw, hwt⟩ := hex
    obtain ⟨x, A, B, hA, hx, hdec, herase⟩ :=
      List.exists_of_eraseP (p := fun n => decide (n.task = t)) hw (by simpa using hwt)
    rw [herase]
    subst hdec
    have hfi : List.findIdx? (fun n => decide (n.task = t)) (A ++ x :: B) =
        some A.length := by
      rw [List.findIdx?_eq_some_of_exists ⟨x, by simp, hx⟩]
      rw [findIdx_decomp _ A x B (fun b hb => by simpa using hA b hb) hx]
    rcases List.eq_nil_or_concat B with rfl | ⟨B', z, rfl⟩
    · have hlast : (A ++ [x]).getLast? = some x := List.getLast?_concat A
      rw [removeTaskSwap_eq hlast hfi]
      rw [List.set_append_right _ _ (Nat.le_refl _)]
      simp only [Nat.sub_self, List.set_cons_zero]
      rw [List.dropLast_concat]
      simp
    · simp only [List.concat_eq_append] at *
      have hlast : (A ++ x :: (B' ++ [z])).getLast? = some z := by
        rw [show A ++ x :: (B' ++ [z]) = (A ++ x :: B') ++ [z] by simp]
        exact List.getLast?_concat _
      rw [removeTaskSwap_eq hlast hfi]
      rw [List.set_append_right _ _ (Nat.le_refl _)]
      simp only [Nat.sub_self, List.set_cons_zero]
      rw [show A ++ z :: (B' ++ [z]) = (A ++ z :: B') ++ [z] by simp]
      rw [List.dropLast_concat]
      have hz : (z :: B').Perm (B' ++ [z]) := by
        have := @List.perm_middle _ z B' ([] : List Node)
        simpa using this.symm
      exact List.Perm.append_left A hz
  · push_neg at hex
    have hforall : ∀ n ∈ nodes, ¬ (fun n => decide (n.task = t)) n = true := by
      intro n hn
      simp [hex n hn]
    rw [List.eraseP_of_forall_not hforall]
    have hfi : List.findIdx? (fun n => decide (n.task = t)) nodes = none := by
      rw [List.findIdx?_eq_none_iff]
      intro n hn
      simp [hex n hn]
    rw [removeTaskSwap_of_not_found hfi]

/-- Erasing the first node with task `t` corresponds, on the task-id images,
to erasing one occurrence of `t`. -/
theorem eraseP_task_map (nodes : List Node) (t : Nat) :
    (nodes.eraseP (fun n => n.task = t)).map Node.task = (nodes.map Node.task).erase t := by
  induction nodes with
  | nil => rfl
  | cons n nodes ih =>
    by_cases h : n.task = t
    · simp [List.eraseP_cons, List.map_cons, List.erase_cons, h]
    · have hd : decide (n.task = t) = false := by simp [h]
      have hb : (n.task == t) = false := beq_eq_false_iff_ne.mpr h
      simp [List.eraseP_cons, List.erase_cons, hd, hb, ih]

theorem removeTaskSwap_task_perm (nodes : List Node) (t : Nat) :
    ((removeTaskSwap nodes t).map Node.task).Perm ((nodes.map Node.task).erase t) := by
  refine (List.Perm.map Node.task (removeTaskSwap_perm nodes t)).trans ?_
  rw [eraseP_task_map]

theorem buildStep_fst (d r : List Nat) (acc : List Node × List PrioritizedTask)
    (n : Node) : (buildStep d r acc n).1 = removeTaskSwap acc.1 n.task := by
  rw [buildStep]
  split <;> rfl

theorem buildFold_fst (d r : List Nat) (l : List Node) (old : List Node)
    (acc : List PrioritizedTask) :
    (l.foldl (buildStep d r) (old, acc)).1 =
      l.foldl (fun o n => removeTaskSwap o n.task) old := by
  induction l generalizing old acc with
  | nil => rfl
  | cons n l ih =>
    simp only [List.foldl_cons]
    by_cases hc : readyPred d r n
    · rw [show buildStep d r (old, acc) n =
        (removeTaskSwap old n.task, acc ++ [⟨n.task, n.priority⟩]) by
          rw [buildStep, if_pos hc]]
      exact ih _ _
    · rw [show buildStep d r (old, acc) n = (removeTaskSwap old n.task, acc) by
          rw [buildStep, if_neg hc]]
      exact ih _ _

theorem buildFold_snd (d r : List Nat) (l : List Node) (old : List Node)
    (acc : List PrioritizedTask) :
    (l.foldl (buildStep d r) (old, acc)).2 =
      acc ++ (l.filter (readyPred d r)).map
        (fun n => (⟨n.task, n.priority⟩ : PrioritizedTask)) := by
  induction l generalizing old acc with
  | nil => simp
  | cons n l ih =>
    simp only [List.foldl_cons]
    by_cases hc : readyPred d r n
    · rw [show buildStep d r (old, acc) n =
        (removeTaskSwap old n.task, acc ++ [⟨n.task, n.priority⟩]) by
          rw [buildStep, if_pos hc]]
      rw [ih]
      simp [List.filter_cons, hc]
    · rw [show buildStep d r (old, acc) n = (removeTaskSwap old n.task, acc) by
          rw [buildStep, if_neg hc]]
      rw [ih]
      simp [List.filter_cons, hc]

theorem foldl_erase_perm_congr {ts₁ ts₂ : List Nat} (ks : List Nat)
    (h : ts₁.Perm ts₂) : (ks.foldl List.erase ts₁).Perm (ks.foldl List.erase ts₂) := by
  induction ks generalizing ts₁ ts₂ with
  | nil => exact h
  | cons k ks ih => exact ih (h.erase k)

theorem mem_foldl_erase (ks : List Nat) {ts : List Nat} (hnd : ts.Nodup) (x : Nat) :
    x ∈ ks.foldl List.erase ts ↔ x ∈ ts ∧ x ∉ ks := by
  induction ks generalizing ts with
  | nil => simp
  | cons k ks ih =>
    simp only [List.foldl_cons]
    rw [ih (hnd.erase k)]
    rw [List.Nodup.mem_erase_iff hnd]
    simp only [List.mem_cons]
    constructor
    · rintro ⟨⟨hxk, hxts⟩, hks⟩
      exact ⟨hxts, by push_neg; exact ⟨hxk, hks⟩⟩
    · rintro ⟨hxts, hk⟩
      push_neg at hk
      exact ⟨⟨hk.1, hxts⟩, hk.2⟩

theorem foldl_erase_nodup (ks : List Nat) {ts : List Nat} (hnd : ts.Nodup) :
    (ks.foldl List.erase ts).Nodup := by
  induction ks generalizing ts with
  | nil => exact hnd
  | cons k ks ih => exact ih (hnd.erase k)

/-- The node remnant of the build loop, viewed through task ids: a
permutation of the old tasks with one occurrence of each new-graph task
erased. -/
theorem removeFold_task_perm (l : List Node) (old : List Node) :
    ((l.foldl (fun o n => removeTaskSwap o n.task) old).map Node.task).Perm
      ((l.map Node.task).foldl List.erase (old.map Node.task)) := by
  induction l generalizing old with
  | nil => exact List.Perm.refl _
  | cons n l ih =>
    simp only [List.foldl_cons, List.map_cons]
    refine (ih (removeTaskSwap old n.task)).trans ?_
    exact foldl_erase_perm_congr _ (removeTaskSwap_task_perm old n.task)

/-- Membership in the remnant's task ids, for an old graph without duplicate
tasks: exactly the old tasks not present in the new graph. -/
theorem remnant_task_mem {old : List Node} (hnd : (old.map Node.task).Nodup)
    (l : List Node) (x : Nat) :
    x ∈ (l.foldl (fun o n => removeTaskSwap o n.task) old).map Node.task ↔
      x ∈ old.map Node.task ∧ x ∉ l.map Node.task := by
  rw [(removeFold_task_perm l old).mem_iff]
  exact mem_foldl_erase _ hnd x

/-! ### Lemmas about the dependency-discount phase -/

theorem decDependent_map_task (nodes : List Node) (d : Nat) :
    ((decDependent nodes d).1).map Node.task = nodes.map Node.task := by
  induction nodes with
  | nil => rfl
  | cons n nodes ih =>
    by_cases h : n.task = d
    · simp [decDependent, h]
    · simp [decDependent, h, ih]

theorem map_if_task_ne (nodes : List Node) (d : Nat) (g : Node → Node)
    (h : ∀ m ∈ nodes, m.task ≠ d) :
    nodes.map (fun n => if n.task = d then g n else n) = nodes := by
  induction nodes with
  | nil => rfl
  | cons n nodes ih =>
    simp only [List.map_cons]
    rw [if_neg (h n (List.mem_cons_self n nodes))]
    rw [ih (fun m hm => h m (List.mem_cons_of_mem n hm))]

/-- For a graph without duplicate tasks, `decDependent` is the pointwise map
that decrements exactly the node with task `d`. -/
theorem decDependent_eq_map {nodes : List Node} (hnd : (nodes.map Node.task).Nodup)
    (d : Nat) :
    (decDependent nodes d).1 =
      nodes.map (fun n =>
        if n.task = d then { n with dependencies := dec32 n.dependencies } else n) := by
  induction nodes with
  | nil => rfl
  | cons n nodes ih =>
    simp only [List.map_cons, List.nodup_cons] at hnd
    by_cases h : n.task = d
    · simp only [decDependent, if_pos h, List.map_cons, if_pos h]
      rw [map_if_task_ne nodes d _ ?_]
      intro m hm hmd
      exact hnd.1 (by
        rw [← h] at hmd
        exact hmd ▸ List.mem_map_of_mem Node.task hm)
    · simp only [decDependent, if_neg h, List.map_cons, if_neg h]
      rw [ih hnd.2]

theorem dec32_iterate_sub {k v : Nat} (h : k ≤ v) : dec32^[k] v = v - k := by
  induction k generalizing v with
  | zero => simp
  | succ k ih =>
    rw [Function.iterate_succ_apply]
    have hv : v ≠ 0 := by omega
    rw [show dec32 v = v - 1 by rw [dec32, if_neg hv]]
    rw [ih (by omega)]
    omega

/-- The edge fold of one discount pass, in pointwise map form (requires no
duplicate tasks so the per-edge node search is unambiguous). -/
theorem discount_edges_eq_map (t : Nat) (E : List Edge) {nodes : List Node}
    (hnd : (nodes.map Node.task).Nodup) :
    E.foldl (fun ns e => if e.task = t then (decDependent ns e.dependent).1 else ns) nodes =
      nodes.map (fun n =>
        { n with dependencies := dec32^[edgeCount E t n.task] n.dependencies }) := by
  induction E generalizing nodes with
  | nil =>
    simp only [List.foldl_nil, edgeCount, List.countP_nil, Function.iterate_zero, id]
    exact (List.map_id nodes).symm
  | cons e E ih =>
    simp only [List.foldl_cons]
    by_cases he : e.task = t
    · rw [if_pos he]
      rw [decDependent_eq_map hnd e.dependent]
      have hnd' : ((nodes.map (fun n =>
          if n.task = e.dependent then { n with dependencies := dec32 n.dependencies }
          else n)).map Node.task).Nodup := by
        rw [List.map_map]
        have : (Node.task ∘ fun n =>
            if n.task = e.dependent then { n with dependencies := dec32 n.dependencies }
            else n) = Node.task := by
          funext n
          by_cases h : n.task = e.dependent <;> simp [Function.comp, h]
        rw [this]
        exact hnd
      rw [ih hnd']
      rw [List.map_map]
      refine List.map_congr_left ?_
      intro n _
      simp only [Function.comp]
      by_cases h : n.task = e.dependent
      · rw [if_pos h]
        have hp : (fun e' => decide (e'.task = t) && decide (e'.dependent = n.task)) e
            = true := by
          simp [he, h]
        simp only [edgeCount, List.countP_cons, hp, if_true]
        rw [Function.iterate_succ_apply]
      · rw [if_neg h]
        have hd : ¬ e.dependent = n.task := fun hh => h hh.symm
        have hp : (fun e' => decide (e'.task = t) && decide (e'.dependent = n.task)) e
            = false := by
          simp [hd]
        simp only [edgeCount, List.countP_cons, hp]
        simp
    · rw [if_neg he]
      rw [ih hnd]
      refine List.map_congr_left ?_
      intro n _
      have hp : (fun e' => decide (e'.task = t) && decide (e'.dependent = n.task)) e
          = false := by
        simp [he]
      simp only [edgeCount, List.countP_cons, hp]
      simp

theorem DiscountCompletedTask_eq_map {g : TaskGraph}
    (hnd : (g.nodes.map Node.task).Nodup) (t : Nat) :
    DiscountCompletedTask g t =
      { nodes := g.nodes.map (fun n =>
          { n with dependencies := dec32^[edgeCount g.edges t n.task] n.dependencies })
        edges := g.edges } := by
  rw [DiscountCompletedTask]
  rw [discount_edges_eq_map t g.edges hnd]

theorem task_comp_decMap (k : Nat → Nat) :
    (Node.task ∘ fun n => { n with dependencies := dec32^[k n.task] n.dependencies }) =
      Node.task := by
  funext n
  rfl

/-- The whole discount phase in pointwise map form: each node's counter is
hit `dec32` exactly `discountAmount` times — once per uncollected completed
task per edge from it. -/
theorem DiscountGraph_eq_map {g : TaskGraph} (hnd : (g.nodes.map Node.task).Nodup)
    (completed : List Nat) :
    DiscountGraph g completed =
      { nodes := g.nodes.map (fun n =>
          { n with dependencies :=
              dec32^[discountAmount g.edges completed n.task] n.dependencies })
        edges := g.edges } := by
  induction completed generalizing g with
  | nil =>
    simp only [DiscountGraph, List.foldl_nil, discountAmount, List.map_nil, List.sum_nil,
      Function.iterate_zero, id]
    rcases g with ⟨ns, es⟩
    simp [List.map_id]
  | cons t completed ih =>
    rw [DiscountGraph, List.foldl_cons]
    rw [show List.foldl DiscountCompletedTask (DiscountCompletedTask g t) completed =
      DiscountGraph (DiscountCompletedTask g t) completed from rfl]
    rw [DiscountCompletedTask_eq_map hnd t]
    have hnd' : (((g.nodes.map (fun n =>
        { n with dependencies := dec32^[edgeCount g.edges t n.task] n.dependencies }))).map
          Node.task).Nodup := by
      rw [List.map_map, task_comp_decMap]
      exact hnd
    rw [ih hnd']
    simp only [List.map_map]
    congr 1
    refine List.map_congr_left ?_
    intro n _
    simp only [Function.comp]
    rw [← Function.iterate_add_apply]
    have hx : discountAmount g.edges (t :: completed) n.task =
        discountAmount g.edges completed n.task + edgeCount g.edges t n.task := by
      simp only [discountAmount, List.map_cons, List.sum_cons]
      omega
    rw [hx]

theorem DiscountGraph_map_task (g : TaskGraph) (completed : List Nat) :
    (DiscountGraph g completed).nodes.map Node.task = g.nodes.map Node.task := by
  induction completed generalizing g with
  | nil => rfl
  | cons t completed ih =>
    rw [DiscountGraph, List.foldl_cons]
    rw [show List.foldl DiscountCompletedTask (DiscountCompletedTask g t) completed =
      DiscountGraph (DiscountCompletedTask g t) completed from rfl]
    rw [ih]
    rw [DiscountCompletedTask]
    simp only
    generalize g.nodes = ns
    induction g.edges generalizing ns with
    | nil => rfl
    | cons e E ihe =>
      simp only [List.foldl_cons]
      by_cases he : e.task = t
      · rw [if_pos he]
        rw [ihe]
        exact decDependent_map_task ns e.dependent
      · rw [if_neg he]
        exact ihe ns

theorem DiscountGraph_edges (g : TaskGraph) (completed : List Nat) :
    (DiscountGraph g completed).edges = g.edges := by
  induction completed generalizing g with
  | nil => rfl
  | cons t completed ih =>
    rw [DiscountGraph, List.foldl_cons]
    exact ih (g := DiscountCompletedTask g t)

/-! ### Characterization of `SetTaskGraph` -/

theorem SetTaskGraph_namespaces (s : RunnerState) (tok : Nat) (g : TaskGraph) :
    (SetTaskGraph s tok g).namespaces =
      (s.namespaces.eraseP (fun q => q.1 == tok)) ++
        [(tok, SetTaskGraphNamespace s tok g)] := rfl

theorem SetTaskGraph_didRun (s : RunnerState) (tok : Nat) (g : TaskGraph) :
    (SetTaskGraph s tok g).didRunTasks = s.didRunTasks := rfl

theorem SetTaskGraph_slots (s : RunnerState) (tok : Nat) (g : TaskGraph) :
    (SetTaskGraph s tok g).running_tasks = s.running_tasks := rfl

theorem SetTaskGraph_lookup_self {s : RunnerState} (tok : Nat) (g : TaskGraph)
    (hnd : (s.namespaces.map Prod.fst).Nodup) :
    (SetTaskGraph s tok g).namespaces.lookup tok = some (SetTaskGraphNamespace s tok g) := by
  rw [SetTaskGraph_namespaces]
  rw [lookup_append_of_none (lookup_erasePKey_self hnd)]
  exact lookup_cons_self

theorem SetTaskGraph_lookup_ne {s : RunnerState} {tok tk : Nat} (g : TaskGraph)
    (hne : tk ≠ tok) :
    (SetTaskGraph s tok g).namespaces.lookup tk = s.namespaces.lookup tk := by
  rw [SetTaskGraph_namespaces]
  rcases h : (s.namespaces.eraseP (fun q => q.1 == tok)).lookup tk with _ | ns
  · rw [lookup_append_of_none h, lookup_cons_ne hne]
    have hx := @lookup_erasePKey_ne s.namespaces tok tk hne
    rw [h] at hx
    exact hx
  · rw [lookup_append_of_some h]
    have hx := @lookup_erasePKey_ne s.namespaces tok tk hne
    rw [h] at hx
    exact hx

theorem SetTaskGraph_keys_nodup {s : RunnerState} (tok : Nat) (g : TaskGraph)
    (hnd : (s.namespaces.map Prod.fst).Nodup) :
    ((SetTaskGraph s tok g).namespaces.map Prod.fst).Nodup := by
  rw [SetTaskGraph_namespaces]
  rw [List.map_append]
  rw [List.nodup_append]
  refine ⟨keys_erasePKey_nodup hnd, List.nodup_singleton tok, ?_⟩
  intro x hx hx'
  simp only [List.map_cons, List.map_nil, List.mem_singleton] at hx'
  subst hx'
  exact not_mem_keys_erasePKey hnd hx

/-- The ready heap built by `SetTaskGraph`, as a multiset: exactly one entry
per node of the discounted new graph passing the eligibility checks. -/
theorem SetTaskGraphNamespace_ready_perm (s : RunnerState) (tok : Nat) (g : TaskGraph) :
    (SetTaskGraphNamespace s tok g).ready_to_run_tasks.Perm
      (((DiscountGraph g ((s.namespaces.lookup tok).getD default).completed_tasks).nodes.filter
          (readyPred s.didRunTasks (runningTaskIds s.running_tasks))).map
        (fun n => (⟨n.task, n.priority⟩ : PrioritizedTask))) := by
  rw [SetTaskGraphNamespace]
  simp only
  refine (MakeTaskHeap_perm _).trans ?_
  rw [BuildReadyAndRemove, buildFold_snd]
  simp

theorem SetTaskGraphNamespace_ready_sorted (s : RunnerState) (tok : Nat) (g : TaskGraph) :
    ptSorted (SetTaskGraphNamespace s tok g).ready_to_run_tasks :=
  MakeTaskHeap_sorted _

theorem SetTaskGraphNamespace_graph (s : RunnerState) (tok : Nat) (g : TaskGraph) :
    (SetTaskGraphNamespace s tok g).graph =
      DiscountGraph g ((s.namespaces.lookup tok).getD default).completed_tasks := rfl

theorem SetTaskGraphNamespace_num_running (s : RunnerState) (tok : Nat) (g : TaskGraph) :
    (SetTaskGraphNamespace s tok g).num_running_tasks =
      ((s.namespaces.lookup tok).getD default).num_running_tasks := rfl

/-- The completed queue after `SetTaskGraph`: the old queue with the
cancelled remnant tasks appended. -/
theorem SetTaskGraphNamespace_completed (s : RunnerState) (tok : Nat) (g : TaskGraph) :
    (SetTaskGraphNamespace s tok g).completed_tasks =
      ((s.namespaces.lookup tok).getD default).completed_tasks ++
        (((DiscountGraph g ((s.namespaces.lookup tok).getD default).completed_tasks).nodes.foldl
            (fun o n => removeTaskSwap o n.task)
            ((s.namespaces.lookup tok).getD default).graph.nodes).filter
          (cancelPred s.didRunTasks (runningTaskIds s.running_tasks))).map Node.task := by
  rw [SetTaskGraphNamespace]
  simp only
  rw [BuildReadyAndRemove, buildFold_fst]

/-! ### Claim C4 -/

/-- C4: after `set_task_graph(token, g)` returns, the namespace's
`ready_to_run_tasks` contains exactly one `{task, priority}` entry for each
node of the stored (discounted) graph whose dependency count is zero, whose
task has not finished running, and whose task is not present in any
`running_tasks` slot — and no other entries (the two vectors are related by
a permutation-free bijection: the heap is a permutation of the list of
eligible nodes' entries) — and the vector satisfies the binary-heap property
under `CompareTaskPriority`. -/
theorem setTaskGraph_ready_heap_exact (s : RunnerState) (tok : Nat) (g : TaskGraph)
    (hnd : (s.namespaces.map Prod.fst).Nodup) :
    ∃ ns', (SetTaskGraph s tok g).namespaces.lookup tok = some ns' ∧
      ns'.graph = DiscountGraph g ((s.namespaces.lookup tok).getD default).completed_tasks ∧
      ns'.ready_to_run_tasks.Perm
        ((ns'.graph.nodes.filter
            (readyPred s.didRunTasks (runningTaskIds s.running_tasks))).map
          (fun n => (⟨n.task, n.priority⟩ : PrioritizedTask))) ∧
      IsHeapOrdered ns'.ready_to_run_tasks := by
  refine ⟨SetTaskGraphNamespace s tok g, SetTaskGraph_lookup_self tok g hnd, rfl, ?_, ?_⟩
  · exact SetTaskGraphNamespace_ready_perm s tok g
  · exact ptSorted_isHeapOrdered (SetTaskGraphNamespace_ready_sorted s tok g)

theorem setTaskGraph_ready_heap_exact_witness :
    ∃ ns', (SetTaskGraph (initState 1) 1 ⟨[⟨10, 0, 0⟩, ⟨11, 1, 1⟩], [⟨10, 11⟩]⟩).namespaces.lookup 1
        = some ns' ∧
      ns'.graph = DiscountGraph ⟨[⟨10, 0, 0⟩, ⟨11, 1, 1⟩], [⟨10, 11⟩]⟩
        (((initState 1).namespaces.lookup 1).getD default).completed_tasks ∧
      ns'.ready_to_run_tasks.Perm
        ((ns'.graph.nodes.filter
            (readyPred (initState 1).didRunTasks (runningTaskIds (initState 1).running_tasks))).map
          (fun n => (⟨n.task, n.priority⟩ : PrioritizedTask))) ∧
      IsHeapOrdered ns'.ready_to_run_tasks :=
  setTaskGraph_ready_heap_exact (initState 1) 1 ⟨[⟨10, 0, 0⟩, ⟨11, 1, 1⟩], [⟨10, 11⟩]⟩
    (by decide)

/-! ### Claim C1 -/

/-- C1: in every call to `set_task_graph(token, g)` (from a namespace map
without duplicate keys and an old graph without duplicate tasks), every task
that had a node in the namespace's previous graph but has no node in `g`,
has not finished running, and is not present in any `running_tasks` slot, is
appended to the namespace's `completed_tasks`; no `did_run` flag changes (so
the cancelled tasks' runs are not invoked); and tasks that have finished or
are currently running are not among the appended tasks. -/
theorem setTaskGraph_cancels_superseded (s : RunnerState) (tok : Nat) (g : TaskGraph)
    (hnd : (s.namespaces.map Prod.fst).Nodup)
    (hold : ((((s.namespaces.lookup tok).getD default).graph.nodes).map Node.task).Nodup) :
    (SetTaskGraph s tok g).didRunTasks = s.didRunTasks ∧
    ∃ appended : List Nat,
      ((SetTaskGraph s tok g).namespaces.lookup tok).map TaskNamespace.completed_tasks =
        some (((s.namespaces.lookup tok).getD default).completed_tasks ++ appended) ∧
      (∀ t, t ∈ (((s.namespaces.lookup tok).getD default).graph.nodes).map Node.task →
        t ∉ g.nodes.map Node.task → t ∉ s.didRunTasks →
        t ∉ runningTaskIds s.running_tasks → t ∈ appended) ∧
      (∀ t, t ∈ s.didRunTasks ∨ t ∈ runningTaskIds s.running_tasks → t ∉ appended) := by
  refine ⟨rfl, ?_⟩
  refine ⟨(((DiscountGraph g ((s.namespaces.lookup tok).getD default).completed_tasks).nodes.foldl
      (fun o n => removeTaskSwap o n.task)
      ((s.namespaces.lookup tok).getD default).graph.nodes).filter
      (cancelPred s.didRunTasks (runningTaskIds s.running_tasks))).map Node.task, ?_, ?_, ?_⟩
  · rw [SetTaskGraph_lookup_self tok g hnd]
    rw [show ((some (SetTaskGraphNamespace s tok g)).map TaskNamespace.completed_tasks)
      = some (SetTaskGraphNamespace s tok g).completed_tasks from rfl]
    rw [SetTaskGraphNamespace_completed s tok g]
  · intro t htold htnew htdid htrun
    have htrem : t ∈ ((DiscountGraph g
        ((s.namespaces.lookup tok).getD default).completed_tasks).nodes.foldl
        (fun o n => removeTaskSwap o n.task)
        ((s.namespaces.lookup tok).getD default).graph.nodes).map Node.task := by
      rw [remnant_task_mem hold _ t]
      refine ⟨htold, ?_⟩
      rw [DiscountGraph_map_task]
      exact htnew
    rcases List.mem_map.mp htrem with ⟨n, hn, hnt⟩
    refine List.mem_map.mpr ⟨n, ?_, hnt⟩
    refine List.mem_filter.mpr ⟨hn, ?_⟩
    rw [cancelPred]
    subst hnt
    simp only [Bool.and_eq_true, Bool.not_eq_true']
    constructor
    · rw [contains_false_iff]
      exact htdid
    · rw [contains_false_iff]
      exact htrun
  · intro t ht hmem
    rcases List.mem_map.mp hmem with ⟨n, hn, hnt⟩
    have hc := (List.mem_filter.mp hn).2
    rw [cancelPred] at hc
    simp only [Bool.and_eq_true, Bool.not_eq_true'] at hc
    rw [contains_false_iff] at hc
    rw [contains_false_iff] at hc
    subst hnt
    rcases ht with h | h
    · exact hc.1 h
    · exact hc.2 h

theorem setTaskGraph_cancels_superseded_witness :
    (SetTaskGraph (SetTaskGraph (initState 1) 1 ⟨[⟨10, 0, 0⟩, ⟨11, 1, 1⟩], [⟨10, 11⟩]⟩)
        1 ⟨[⟨12, 0, 0⟩], []⟩).didRunTasks =
      (SetTaskGraph (initState 1) 1 ⟨[⟨10, 0, 0⟩, ⟨11, 1, 1⟩], [⟨10, 11⟩]⟩).didRunTasks ∧
    ∃ appended : List Nat,
      ((SetTaskGraph (SetTaskGraph (initState 1) 1 ⟨[⟨10, 0, 0⟩, ⟨11, 1, 1⟩], [⟨10, 11⟩]⟩)
            1 ⟨[⟨12, 0, 0⟩], []⟩).namespaces.lookup 1).map TaskNamespace.completed_tasks =
        some ((((SetTaskGraph (initState 1) 1
              ⟨[⟨10, 0, 0⟩, ⟨11, 1, 1⟩], [⟨10, 11⟩]⟩).namespaces.lookup 1).getD
            default).completed_tasks ++ appended) ∧
      (∀ t, t ∈ ((((SetTaskGraph (initState 1) 1
              ⟨[⟨10, 0, 0⟩, ⟨11, 1, 1⟩], [⟨10, 11⟩]⟩).namespaces.lookup 1).getD
            default).graph.nodes).map Node.task →
        t ∉ (⟨[⟨12, 0, 0⟩], []⟩ : TaskGraph).nodes.map Node.task →
        t ∉ (SetTaskGraph (initState 1) 1
            ⟨[⟨10, 0, 0⟩, ⟨11, 1, 1⟩], [⟨10, 11⟩]⟩).didRunTasks →
        t ∉ runningTaskIds (SetTaskGraph (initState 1) 1
            ⟨[⟨10, 0, 0⟩, ⟨11, 1, 1⟩], [⟨10, 11⟩]⟩).running_tasks → t ∈ appended) ∧
      (∀ t, t ∈ (SetTaskGraph (initState 1) 1
            ⟨[⟨10, 0, 0⟩, ⟨11, 1, 1⟩], [⟨10, 11⟩]⟩).didRunTasks ∨
          t ∈ runningTaskIds (SetTaskGraph (initState 1) 1
            ⟨[⟨10, 0, 0⟩, ⟨11, 1, 1⟩], [⟨10, 11⟩]⟩).running_tasks → t ∉ appended) :=
  setTaskGraph_cancels_superseded
    (SetTaskGraph (initState 1) 1 ⟨[⟨10, 0, 0⟩, ⟨11, 1, 1⟩], [⟨10, 11⟩]⟩)
    1 ⟨[⟨12, 0, 0⟩], []⟩ (by decide) (by decide)

/-! ### Claim C3 -/

/-- C3: during `set_task_graph`, before the ready heap is built, every node's
dependency counter is decremented exactly once for each pair of an
uncollected completed task `t` and an edge `(t → N)` of the newly submitted
graph — the discounted counters are the submitted ones minus
`discountAmount` — and consequently a node all of whose declared
dependencies are already-completed-but-uncollected (so its counter is fully
discounted), and that has neither finished nor is running, lands in the
ready heap immediately. -/
theorem setTaskGraph_discount_exact (s : RunnerState) (tok : Nat) (g : TaskGraph)
    (hnd : (s.namespaces.map Prod.fst).Nodup)
    (hgnd : (g.nodes.map Node.task).Nodup)
    (hbound : ∀ n ∈ g.nodes,
      discountAmount g.edges (namespaceFor s tok).completed_tasks n.task
        ≤ n.dependencies) :
    (DiscountGraph g (namespaceFor s tok).completed_tasks).nodes =
      g.nodes.map (fun n => { n with dependencies :=
        (n.dependencies -
          discountAmount g.edges (namespaceFor s tok).completed_tasks n.task) }) ∧
    (∀ n ∈ g.nodes,
      n.dependencies =
        discountAmount g.edges (namespaceFor s tok).completed_tasks n.task →
      n.task ∉ s.didRunTasks → n.task ∉ runningTaskIds s.running_tasks →
      ∃ ns', (SetTaskGraph s tok g).namespaces.lookup tok = some ns' ∧
        n.task ∈ ns'.ready_to_run_tasks.map PrioritizedTask.task) := by
  have hmap : (DiscountGraph g (namespaceFor s tok).completed_tasks).nodes =
      g.nodes.map (fun n => { n with dependencies :=
        (n.dependencies -
          discountAmount g.edges (namespaceFor s tok).completed_tasks n.task) }) := by
    rw [DiscountGraph_eq_map hgnd]
    refine List.map_congr_left ?_
    intro n hn
    rw [namespaceFor] at hbound
    rw [namespaceFor, dec32_iterate_sub (hbound n hn)]
  refine ⟨hmap, ?_⟩
  intro n hn heq hdid hrun
  refine ⟨SetTaskGraphNamespace s tok g, SetTaskGraph_lookup_self tok g hnd, ?_⟩
  have hperm := SetTaskGraphNamespace_ready_perm s tok g
  have hn' : ({ n with dependencies :=
      (n.dependencies -
        discountAmount g.edges (namespaceFor s tok).completed_tasks n.task) } : Node) ∈
      (DiscountGraph g (namespaceFor s tok).completed_tasks).nodes := by
    rw [hmap]
    exact List.mem_map_of_mem _ hn
  have hpred : readyPred s.didRunTasks (runningTaskIds s.running_tasks)
      ({ n with dependencies :=
        (n.dependencies -
          discountAmount g.edges (namespaceFor s tok).completed_tasks n.task) } : Node)
      = true := by
    rw [readyPred]
    simp only [Bool.and_eq_true, Bool.not_eq_true', decide_eq_true_eq]
    refine ⟨⟨by omega, ?_⟩, ?_⟩
    · rw [contains_false_iff]
      exact hdid
    · rw [contains_false_iff]
      exact hrun
  have hp : (⟨n.task, n.priority⟩ : PrioritizedTask) ∈
      (SetTaskGraphNamespace s tok g).ready_to_run_tasks := by
    rw [hperm.mem_iff]
    rw [namespaceFor] at hn' hpred
    exact List.mem_map.mpr ⟨_, List.mem_filter.mpr ⟨hn', hpred⟩, rfl⟩
  exact List.mem_map.mpr ⟨⟨n.task, n.priority⟩, hp, rfl⟩

theorem setTaskGraph_discount_exact_witness :
    (DiscountGraph ⟨[⟨7, 0, 0⟩, ⟨8, 0, 1⟩], [⟨7, 8⟩]⟩
        (namespaceFor (RunTaskWithLockAcquired
          (SetTaskGraph (initState 1) 1 ⟨[⟨7, 0, 0⟩], []⟩) 0) 1).completed_tasks).nodes =
      (⟨[⟨7, 0, 0⟩, ⟨8, 0, 1⟩], [⟨7, 8⟩]⟩ : TaskGraph).nodes.map
        (fun n => { n with dependencies :=
          (n.dependencies -
            discountAmount (⟨[⟨7, 0, 0⟩, ⟨8, 0, 1⟩], [⟨7, 8⟩]⟩ : TaskGraph).edges
              (namespaceFor (RunTaskWithLockAcquired
                (SetTaskGraph (initState 1) 1 ⟨[⟨7, 0, 0⟩], []⟩) 0) 1).completed_tasks
              n.task) }) ∧
    (∀ n ∈ (⟨[⟨7, 0, 0⟩, ⟨8, 0, 1⟩], [⟨7, 8⟩]⟩ : TaskGraph).nodes,
      n.dependencies =
        discountAmount (⟨[⟨7, 0, 0⟩, ⟨8, 0, 1⟩], [⟨7, 8⟩]⟩ : TaskGraph).edges
          (namespaceFor (RunTaskWithLockAcquired
            (SetTaskGraph (initState 1) 1 ⟨[⟨7, 0, 0⟩], []⟩) 0) 1).completed_tasks n.task →
      n.task ∉ (RunTaskWithLockAcquired (SetTaskGraph (initState 1) 1 ⟨[⟨7, 0, 0⟩], []⟩)
          0).didRunTasks →
      n.task ∉ runningTaskIds (RunTaskWithLockAcquired
          (SetTaskGraph (initState 1) 1 ⟨[⟨7, 0, 0⟩], []⟩) 0).running_tasks →
      ∃ ns', (SetTaskGraph (RunTaskWithLockAcquired
            (SetTaskGraph (initState 1) 1 ⟨[⟨7, 0, 0⟩], []⟩) 0) 1
          ⟨[⟨7, 0, 0⟩, ⟨8, 0, 1⟩], [⟨7, 8⟩]⟩).namespaces.lookup 1 = some ns' ∧
        n.task ∈ ns'.ready_to_run_tasks.map PrioritizedTask.task) :=
  setTaskGraph_discount_exact
    (RunTaskWithLockAcquired (SetTaskGraph (initState 1) 1 ⟨[⟨7, 0, 0⟩], []⟩) 0)
    1 ⟨[⟨7, 0, 0⟩, ⟨8, 0, 1⟩], [⟨7, 8⟩]⟩ (by decide) (by decide) (by decide)

/-! ### Claim C6 -/

/-- C6: `collect_completed_tasks(token, out)`: if no namespace exists for the
token it returns with the state and the (empty) out-vector unchanged;
otherwise it moves the namespace's `completed_tasks` out (leaving the
namespace's queue empty) and erases the namespace exactly when
`has_finished_running_tasks` holds afterwards (ready heap empty, no running
tasks, no graph nodes). -/
theorem collectCompletedTasks_spec (s : RunnerState) (tok : Nat)
    (hnd : (s.namespaces.map Prod.fst).Nodup) :
    (s.namespaces.lookup tok = none → CollectCompletedTasks s tok = (s, [])) ∧
    (∀ ns, s.namespaces.lookup tok = some ns →
      (CollectCompletedTasks s tok).2 = ns.completed_tasks ∧
      (HasFinishedRunningTasksInNamespace { ns with completed_tasks := [] } = true →
        (CollectCompletedTasks s tok).1.namespaces =
          s.namespaces.eraseP (fun q => q.1 == tok) ∧
        (CollectCompletedTasks s tok).1.namespaces.lookup tok = none) ∧
      (HasFinishedRunningTasksInNamespace { ns with completed_tasks := [] } = false →
        (CollectCompletedTasks s tok).1.namespaces.lookup tok =
          some { ns with completed_tasks := [] })) := by
  constructor
  · intro h
    rw [CollectCompletedTasks, h]
  · intro ns h
    rcases hfin : HasFinishedRunningTasksInNamespace { ns with completed_tasks := [] } with _ | _
    · refine ⟨?_, ?_, ?_⟩
      · simp only [CollectCompletedTasks, h]
        rw [if_neg (by simp [hfin])]
      · intro hcontra
        simp at hcontra
      · intro _
        simp only [CollectCompletedTasks, h]
        rw [if_neg (by simp [hfin])]
        exact lookup_updateNs_self h _
    · refine ⟨?_, ?_, ?_⟩
      · simp only [CollectCompletedTasks, h]
        rw [if_pos hfin]
      · intro _
        simp only [CollectCompletedTasks, h]
        rw [if_pos hfin]
        exact ⟨rfl, lookup_erasePKey_self hnd⟩
      · intro hcontra
        simp at hcontra

theorem collectCompletedTasks_spec_witness :
    ((SetTaskGraph (initState 1) 1 ⟨[], []⟩).namespaces.lookup 1 = none →
      CollectCompletedTasks (SetTaskGraph (initState 1) 1 ⟨[], []⟩) 1 =
        (SetTaskGraph (initState 1) 1 ⟨[], []⟩, [])) ∧
    (∀ ns, (SetTaskGraph (initState 1) 1 ⟨[], []⟩).namespaces.lookup 1 = some ns →
      (CollectCompletedTasks (SetTaskGraph (initState 1) 1 ⟨[], []⟩) 1).2 =
        ns.completed_tasks ∧
      (HasFinishedRunningTasksInNamespace { ns with completed_tasks := [] } = true →
        (CollectCompletedTasks (SetTaskGraph (initState 1) 1 ⟨[], []⟩) 1).1.namespaces =
          (SetTaskGraph (initState 1) 1 ⟨[], []⟩).namespaces.eraseP (fun q => q.1 == 1) ∧
        (CollectCompletedTasks
            (SetTaskGraph (initState 1) 1 ⟨[], []⟩) 1).1.namespaces.lookup 1 = none) ∧
      (HasFinishedRunningTasksInNamespace { ns with completed_tasks := [] } = false →
        (CollectCompletedTasks
            (SetTaskGraph (initState 1) 1 ⟨[], []⟩) 1).1.namespaces.lookup 1 =
          some { ns with completed_tasks := [] })) :=
  collectCompletedTasks_spec (SetTaskGraph (initState 1) 1 ⟨[], []⟩) 1 (by decide)

/-! ### Claim C7 -/

/-- C7: when `wait_for_tasks_to_finish_running(token)` returns, either no
namespace exists for the token (the call returned immediately, result
`none`), or the namespace it observed satisfies
`has_finished_running_tasks`: empty ready heap, zero running-task count, and
no graph nodes.  The condition-variable loop is modelled by the sequence of
namespace snapshots observed at successive wakeups. -/
theorem waitForTasksToFinishRunning_post (s : RunnerState) (tok : Nat)
    (wakeups : List TaskNamespace) (r : Option TaskNamespace)
    (h : WaitForTasksToFinishRunning s tok wakeups = some r) :
    (r = none ∧ s.namespaces.lookup tok = none) ∨
    (∃ ns, r = some ns ∧ HasFinishedRunningTasksInNamespace ns = true ∧
      ns.ready_to_run_tasks = [] ∧ ns.num_running_tasks = 0 ∧ ns.graph.nodes = []) := by
  rcases hl : s.namespaces.lookup tok with _ | ns
  · simp only [WaitForTasksToFinishRunning, hl, Option.some.injEq] at h
    exact Or.inl ⟨h.symm, rfl⟩
  · simp only [WaitForTasksToFinishRunning, hl] at h
    right
    by_cases hfin : HasFinishedRunningTasksInNamespace ns = true
    · rw [if_pos hfin] at h
      simp only [Option.some.injEq] at h
      have hprops := hfin
      rw [HasFinishedRunningTasksInNamespace] at hprops
      simp only [Bool.and_eq_true, List.isEmpty_iff, beq_iff_eq] at hprops
      exact ⟨ns, h.symm, hfin, hprops.1.1, hprops.1.2, hprops.2⟩
    · rw [if_neg hfin] at h
      rcases hfound : wakeups.find? HasFinishedRunningTasksInNamespace with _ | ns'
      · rw [hfound] at h
        simp at h
      · rw [hfound] at h
        simp only [Option.map_some', Option.some.injEq] at h
        have hfin' := List.find?_some hfound
        have hprops := hfin'
        rw [HasFinishedRunningTasksInNamespace] at hprops
        simp only [Bool.and_eq_true, List.isEmpty_iff, beq_iff_eq] at hprops
        exact ⟨ns', h.symm, hfin', hprops.1.1, hprops.1.2, hprops.2⟩

theorem waitForTasksToFinishRunning_post_witness :
    ((none : Option TaskNamespace) = none ∧ (initState 1).namespaces.lookup 7 = none) ∨
    (∃ ns, (none : Option TaskNamespace) = some ns ∧
      HasFinishedRunningTasksInNamespace ns = true ∧
      ns.ready_to_run_tasks = [] ∧ ns.num_running_tasks = 0 ∧ ns.graph.nodes = []) :=
  waitForTasksToFinishRunning_post (initState 1) 7 [] none (by decide)

/-! ### Claim C8 -/

theorem TaskNamespace_eq {a b : TaskNamespace} (h1 : a.graph = b.graph)
    (h2 : a.ready_to_run_tasks = b.ready_to_run_tasks)
    (h3 : a.completed_tasks = b.completed_tasks)
    (h4 : a.num_running_tasks = b.num_running_tasks) : a = b := by
  cases a
  cases b
  simp_all

theorem RunnerState_eq {a b : RunnerState} (h1 : a.namespaces = b.namespaces)
    (h2 : a.ready_to_run_namespaces = b.ready_to_run_namespaces)
    (h3 : a.running_tasks = b.running_tasks)
    (h4 : a.didRunTasks = b.didRunTasks) : a = b := by
  cases a
  cases b
  simp_all

theorem DiscountCompletedTask_no_edges {g : TaskGraph} {t : Nat}
    (h : ∀ e ∈ g.edges, e.task ≠ t) : DiscountCompletedTask g t = g := by
  rw [DiscountCompletedTask]
  rcases g with ⟨ns, es⟩
  simp only
  rw [TaskGraph.mk.injEq]
  refine ⟨?_, rfl⟩
  simp only at h
  induction es generalizing ns with
  | nil => rfl
  | cons e es ih =>
    simp only [List.foldl_cons]
    rw [if_neg (h e (List.mem_cons_self e es))]
    exact ih ns (fun e' he' => h e' (List.mem_cons_of_mem e he'))

theorem DiscountGraph_append (g : TaskGraph) (c1 c2 : List Nat) :
    DiscountGraph g (c1 ++ c2) = DiscountGraph (DiscountGraph g c1) c2 := by
  rw [DiscountGraph, DiscountGraph, DiscountGraph, List.foldl_append]

theorem DiscountGraph_no_edges {g : TaskGraph} {completed : List Nat}
    (h : ∀ t ∈ completed, ∀ e ∈ g.edges, e.task ≠ t) : DiscountGraph g completed = g := by
  induction completed generalizing g with
  | nil => rfl
  | cons t completed ih =>
    rw [DiscountGraph, List.foldl_cons]
    rw [show List.foldl DiscountCompletedTask (DiscountCompletedTask g t) completed =
      DiscountGraph (DiscountCompletedTask g t) completed from rfl]
    rw [DiscountCompletedTask_no_edges (h t (List.mem_cons_self t completed))]
    exact ih (fun t' ht' => h t' (List.mem_cons_of_mem t ht'))

/-- Removing every task of a duplicate-free node list from itself leaves
nothing. -/
theorem removeFold_self_nil {l : List Node} (hnd : (l.map Node.task).Nodup) :
    l.foldl (fun o n => removeTaskSwap o n.task) l = [] := by
  rcases hres : l.foldl (fun o n => removeTaskSwap o n.task) l with _ | ⟨n, rest⟩
  · exact hres
  · exfalso
    have : n.task ∈ (l.foldl (fun o n => removeTaskSwap o n.task) l).map Node.task := by
      rw [hres]
      exact List.mem_map_of_mem Node.task (List.mem_cons_self n rest)
    rw [remnant_task_mem hnd l n.task] at this
    exact this.2 this.1

theorem SetTaskGraphNamespace_ready (s : RunnerState) (tok : Nat) (g : TaskGraph) :
    (SetTaskGraphNamespace s tok g).ready_to_run_tasks =
      MakeTaskHeap (((DiscountGraph g (namespaceFor s tok).completed_tasks).nodes.filter
          (readyPred s.didRunTasks (runningTaskIds s.running_tasks))).map
        (fun n => (⟨n.task, n.priority⟩ : PrioritizedTask))) := by
  rw [SetTaskGraphNamespace]
  simp only
  rw [BuildReadyAndRemove, buildFold_snd]
  rw [namespaceFor]
  simp

/-- C8: submitting the very same graph twice in a row, with nothing run,
dispatched or collected in between, leaves the runner in exactly the same
state as after the first submission (hence the same ready set, the same
graph nodes and edges, an unchanged completed queue, and no further task
cancelled).  Hypotheses: duplicate-free namespace keys and old-graph tasks,
duplicate-free tasks in `g`, and `g`'s edge sources all appear among `g`'s
nodes (the submission well-formedness the spec requires). -/
theorem setTaskGraph_idempotent (s : RunnerState) (tok : Nat) (g : TaskGraph)
    (hnd : (s.namespaces.map Prod.fst).Nodup)
    (hold : ((namespaceFor s tok).graph.nodes.map Node.task).Nodup)
    (hgnd : (g.nodes.map Node.task).Nodup)
    (hedge : ∀ e ∈ g.edges, e.task ∈ g.nodes.map Node.task) :
    SetTaskGraph (SetTaskGraph s tok g) tok g = SetTaskGraph s tok g := by
  have hlook1 : (SetTaskGraph s tok g).namespaces.lookup tok =
      some (SetTaskGraphNamespace s tok g) := SetTaskGraph_lookup_self tok g hnd
  have hnsFor1 : namespaceFor (SetTaskGraph s tok g) tok = SetTaskGraphNamespace s tok g := by
    rw [namespaceFor, hlook1]
    rfl
  -- the cancelled tasks of the first call have no edges in g
  have hcancel : ∀ a ∈ (((DiscountGraph g (namespaceFor s tok).completed_tasks).nodes.foldl
      (fun o n => removeTaskSwap o n.task)
      (namespaceFor s tok).graph.nodes).filter
        (cancelPred s.didRunTasks (runningTaskIds s.running_tasks))).map Node.task,
      a ∉ g.nodes.map Node.task := by
    intro a ha
    rcases List.mem_map.mp ha with ⟨n, hn, hnt⟩
    have hn' : n ∈ (DiscountGraph g (namespaceFor s tok).completed_tasks).nodes.foldl
        (fun o n => removeTaskSwap o n.task) (namespaceFor s tok).graph.nodes :=
      (List.mem_filter.mp hn).1
    have : n.task ∈ ((DiscountGraph g (namespaceFor s tok).completed_tasks).nodes.foldl
        (fun o n => removeTaskSwap o n.task) (namespaceFor s tok).graph.nodes).map
          Node.task := List.mem_map_of_mem Node.task hn'
    rw [remnant_task_mem hold _ n.task] at this
    rw [DiscountGraph_map_task] at this
    rw [← hnt]
    exact this.2
  -- the second discount equals the first
  have hcompleted1 : (SetTaskGraphNamespace s tok g).completed_tasks =
      (namespaceFor s tok).completed_tasks ++
      (((DiscountGraph g (namespaceFor s tok).completed_tasks).nodes.foldl
          (fun o n => removeTaskSwap o n.task)
          (namespaceFor s tok).graph.nodes).filter
        (cancelPred s.didRunTasks (runningTaskIds s.running_tasks))).map Node.task := by
    rw [SetTaskGraphNamespace_completed]
    rw [namespaceFor]
  have hg1 : DiscountGraph g (SetTaskGraphNamespace s tok g).completed_tasks =
      DiscountGraph g (namespaceFor s tok).completed_tasks := by
    rw [hcompleted1, DiscountGraph_append]
    refine DiscountGraph_no_edges ?_
    intro t ht e he het
    rw [DiscountGraph_edges] at he
    subst het
    exact hcancel e.task ht (hedge e he)
  have hg1task : ((DiscountGraph g (namespaceFor s tok).completed_tasks).nodes.map
      Node.task).Nodup := by
    rw [DiscountGraph_map_task]
    exact hgnd
  -- the namespace produced by the second call equals the first one's
  have hns : SetTaskGraphNamespace (SetTaskGraph s tok g) tok g =
      SetTaskGraphNamespace s tok g := by
    refine TaskNamespace_eq ?_ ?_ ?_ ?_
    · rw [SetTaskGraphNamespace_graph, SetTaskGraphNamespace_graph]
      rw [show ((SetTaskGraph s tok g).namespaces.lookup tok).getD default =
        namespaceFor (SetTaskGraph s tok g) tok from rfl]
      rw [show (s.namespaces.lookup tok).getD default = namespaceFor s tok from rfl]
      rw [hnsFor1, hg1]
    · rw [SetTaskGraphNamespace_ready, SetTaskGraphNamespace_ready]
      rw [SetTaskGraph_didRun, SetTaskGraph_slots, hnsFor1, hg1]
    · rw [SetTaskGraphNamespace_completed]
      rw [show ((SetTaskGraph s tok g).namespaces.lookup tok).getD default =
        namespaceFor (SetTaskGraph s tok g) tok from rfl]
      rw [hnsFor1]
      rw [SetTaskGraph_didRun, SetTaskGraph_slots]
      rw [hg1]
      rw [show (SetTaskGraphNamespace s tok g).graph.nodes =
        (DiscountGraph g (namespaceFor s tok).completed_tasks).nodes from rfl]
      rw [removeFold_self_nil hg1task]
      simp
    · rw [SetTaskGraphNamespace_num_running]
      rw [show ((SetTaskGraph s tok g).namespaces.lookup tok).getD default =
        namespaceFor (SetTaskGraph s tok g) tok from rfl]
      rw [hnsFor1]
  -- the namespace maps coincide
  have hmap : (SetTaskGraph (SetTaskGraph s tok g) tok g).namespaces =
      (SetTaskGraph s tok g).namespaces := by
    rw [SetTaskGraph_namespaces, hns]
    rw [SetTaskGraph_namespaces]
    have hno : ∀ b ∈ s.namespaces.eraseP (fun q => q.1 == tok),
        ¬ ((fun q => q.1 == tok) b = true) := by
      intro b hb hbt
      refine @not_mem_keys_erasePKey s.namespaces tok hnd ?_
      rcases b with ⟨k, v⟩
      simp only [beq_iff_eq] at hbt
      subst hbt
      exact List.mem_map_of_mem Prod.fst hb
    rw [List.eraseP_append_right _ hno]
    rw [show List.eraseP (fun q => q.1 == tok) [(tok, SetTaskGraphNamespace s tok g)]
      = [] by simp [List.eraseP_cons]]
    simp
  refine RunnerState_eq hmap ?_ rfl rfl
  rw [show (SetTaskGraph (SetTaskGraph s tok g) tok g).ready_to_run_namespaces =
    MakeNamespaceHeap (SetTaskGraph (SetTaskGraph s tok g) tok g).namespaces
      (((SetTaskGraph (SetTaskGraph s tok g) tok g).namespaces.filter
        (fun q => !q.2.ready_to_run_tasks.isEmpty)).map Prod.fst) from rfl]
  rw [hmap]
  rfl

theorem setTaskGraph_idempotent_witness :
    SetTaskGraph (SetTaskGraph (initState 1) 1 ⟨[⟨1, 3, 1⟩, ⟨2, 1, 0⟩], [⟨2, 1⟩]⟩) 1
        ⟨[⟨1, 3, 1⟩, ⟨2, 1, 0⟩], [⟨2, 1⟩]⟩ =
      SetTaskGraph (initState 1) 1 ⟨[⟨1, 3, 1⟩, ⟨2, 1, 0⟩], [⟨2, 1⟩]⟩ :=
  setTaskGraph_idempotent (initState 1) 1 ⟨[⟨1, 3, 1⟩, ⟨2, 1, 0⟩], [⟨2, 1⟩]⟩
    (by decide) (by decide) (by decide) (by decide)

/-! ### Equation lemmas for the two dispatch halves -/

theorem BeginRunTask_eq {s : RunnerState} {i : Nat} {tk : Nat} {rest : List Nat}
    {ns : TaskNamespace} {p : PrioritizedTask} {restReady : List PrioritizedTask}
    (hr : s.ready_to_run_namespaces = tk :: rest)
    (hns : s.namespaces.lookup tk = some ns)
    (hready : ns.ready_to_run_tasks = p :: restReady)
    (hslot : s.running_tasks.get? i = some none) :
    BeginRunTask s i =
      { s with
        namespaces := updateNs s.namespaces tk
          { ns with
            ready_to_run_tasks := restReady
            num_running_tasks := ns.num_running_tasks + 1 }
        ready_to_run_namespaces :=
          if restReady.isEmpty then rest
          else insertTok (updateNs s.namespaces tk
            { ns with
              ready_to_run_tasks := restReady
              num_running_tasks := ns.num_running_tasks + 1 }) tk rest
        running_tasks := s.running_tasks.set i (some (tk, p.task)) } := by
  simp only [BeginRunTask, hr, hns, hready]
  rw [if_pos hslot]

theorem FinishRunTask_eq {s : RunnerState} {i : Nat} {tk t : Nat} {ns : TaskNamespace}
    (hslot : s.running_tasks.get? i = some (some (tk, t)))
    (hns : s.namespaces.lookup tk = some ns) :
    FinishRunTask s i =
      { s with
        namespaces := updateNs s.namespaces tk (FinishRunTaskNamespace ns t)
        ready_to_run_namespaces :=
          if (FanOut ns.graph t).2.isEmpty then
            (if ns.ready_to_run_tasks.isEmpty && !(FanOut ns.graph t).2.isEmpty then
              s.ready_to_run_namespaces ++ [tk]
            else s.ready_to_run_namespaces)
          else
            MakeNamespaceHeap (updateNs s.namespaces tk (FinishRunTaskNamespace ns t))
              (if ns.ready_to_run_tasks.isEmpty && !(FanOut ns.graph t).2.isEmpty then
                s.ready_to_run_namespaces ++ [tk]
              else s.ready_to_run_namespaces)
        running_tasks := s.running_tasks.set i none
        didRunTasks :=
          if s.didRunTasks.contains t then s.didRunTasks else s.didRunTasks ++ [t] } := by
  simp only [FinishRunTask, hslot, hns]

/-! ### Claim C5 -/

/-- C5: with the two heaps in heap order (the sorted canonical form of the
std heap contract), `run_task_with_lock_acquired` pops the head namespace of
`ready_to_run_namespaces` and that namespace's head ready task — whose
numeric priority is minimal among all ready tasks of all ready namespaces
(lower value = higher urgency) — removes it from the ready heap, pushes the
namespace back iff it still has ready tasks, and runs exactly that task
(its `did_run` flag is set and it is appended to the namespace's completed
queue).  In particular, with two namespaces holding single tasks of
priorities 5 and 1, the priority-1 task is the one dispatched, whatever the
submission order was (the hypotheses only constrain the current state). -/
theorem runTask_priority_dispatch (s : RunnerState) (i : Nat) (tk : Nat)
    (rest : List Nat) (ns : TaskNamespace) (p : PrioritizedTask)
    (restReady : List PrioritizedTask)
    (hr : s.ready_to_run_namespaces = tk :: rest)
    (hns : s.namespaces.lookup tk = some ns)
    (hready : ns.ready_to_run_tasks = p :: restReady)
    (hslot : s.running_tasks.get? i = some none)
    (hsortR : tokSorted s.namespaces s.ready_to_run_namespaces)
    (hsortT : ∀ tk' ∈ s.ready_to_run_namespaces,
      ptSorted ((s.namespaces.lookup tk').getD default).ready_to_run_tasks)
    (hnodup : s.ready_to_run_namespaces.Nodup) :
    (∀ tk' ∈ s.ready_to_run_namespaces,
      ∀ q ∈ ((s.namespaces.lookup tk').getD default).ready_to_run_tasks,
        p.priority ≤ q.priority) ∧
    (∃ ns', (BeginRunTask s i).namespaces.lookup tk = some ns' ∧
      ns'.ready_to_run_tasks = restReady) ∧
    (tk ∈ (BeginRunTask s i).ready_to_run_namespaces ↔ restReady ≠ []) ∧
    p.task ∈ (RunTaskWithLockAcquired s i).didRunTasks ∧
    (∃ ns'', (RunTaskWithLockAcquired s i).namespaces.lookup tk = some ns'' ∧
      ns''.completed_tasks = ns.completed_tasks ++ [p.task]) := by
  have hsB := BeginRunTask_eq hr hns hready hslot
  have hkeytk : NamespaceKey s.namespaces tk = p.priority := by
    rw [NamespaceKey, hns]
    rw [show (some ns).getD default = ns from rfl]
    rw [HeadTaskPriority, hready]
  refine ⟨?_, ?_, ?_, ?_, ?_⟩
  · intro tk' htk' q hq
    have hkey : NamespaceKey s.namespaces tk ≤ NamespaceKey s.namespaces tk' := by
      rw [hr] at htk'
      rcases List.mem_cons.mp htk' with rfl | hmem
      · exact Nat.le_refl _
      · rw [tokSorted, hr, List.pairwise_cons] at hsortR
        exact hsortR.1 tk' hmem
    have hkeyq : NamespaceKey s.namespaces tk' ≤ q.priority := by
      have hsorted := hsortT tk' htk'
      rcases hq' : ((s.namespaces.lookup tk').getD default).ready_to_run_tasks with _ | ⟨q0, l⟩
      · rw [hq'] at hq
        cases hq
      · rw [NamespaceKey, HeadTaskPriority, hq']
        rw [ptSorted, hq', List.pairwise_cons] at hsorted
        rw [hq'] at hq
        rcases List.mem_cons.mp hq with rfl | hql
        · exact Nat.le_refl _
        · exact hsorted.1 q hql
    rw [← hkeytk]
    exact Nat.le_trans hkey hkeyq
  · rw [hsB]
    exact ⟨_, lookup_updateNs_self hns _, rfl⟩
  · rw [hsB]
    rcases hre : restReady with _ | ⟨q, l⟩
    · simp only [List.isEmpty_nil, if_pos rfl]
      constructor
      · intro hmem
        have : tk ∉ rest := by
          rw [hr] at hnodup
          exact (List.nodup_cons.mp hnodup).1
        exact absurd hmem this
      · intro hcontra
        exact absurd rfl hcontra
    · rw [show (q :: l).isEmpty = false from rfl]
      rw [if_neg (by simp)]
      constructor
      · intro _
        exact List.cons_ne_nil q l
      · intro _
        exact ((insertTok_perm _ tk rest).mem_iff).mpr (List.mem_cons_self _ _)
  · have hslotB : (BeginRunTask s i).running_tasks.get? i = some (some (tk, p.task)) := by
      rw [hsB]
      show (s.running_tasks.set i (some (tk, p.task))).get? i = _
      rw [List.get?_set_eq, hslot]
      rfl
    have hnsB : (BeginRunTask s i).namespaces.lookup tk =
        some { ns with
          ready_to_run_tasks := restReady
          num_running_tasks := ns.num_running_tasks + 1 } := by
      rw [hsB]
      exact lookup_updateNs_self hns _
    have hfin := FinishRunTask_eq hslotB hnsB
    rw [RunTaskWithLockAcquired, hfin]
    show p.task ∈ (if (BeginRunTask s i).didRunTasks.contains p.task then
      (BeginRunTask s i).didRunTasks else (BeginRunTask s i).didRunTasks ++ [p.task])
    by_cases hc : (BeginRunTask s i).didRunTasks.contains p.task
    · rw [if_pos hc]
      exact List.elem_iff.mp hc
    · rw [if_neg hc]
      exact List.mem_append.mpr (Or.inr (List.mem_cons_self _ _))
  · have hslotB : (BeginRunTask s i).running_tasks.get? i = some (some (tk, p.task)) := by
      rw [hsB]
      show (s.running_tasks.set i (some (tk, p.task))).get? i = _
      rw [List.get?_set_eq, hslot]
      rfl
    have hnsB : (BeginRunTask s i).namespaces.lookup tk =
        some { ns with
          ready_to_run_tasks := restReady
          num_running_tasks := ns.num_running_tasks + 1 } := by
      rw [hsB]
      exact lookup_updateNs_self hns _
    have hfin := FinishRunTask_eq hslotB hnsB
    rw [RunTaskWithLockAcquired, hfin]
    refine ⟨FinishRunTaskNamespace { ns with
        ready_to_run_tasks := restReady
        num_running_tasks := ns.num_running_tasks + 1 } p.task,
      lookup_updateNs_self hnsB _, rfl⟩

theorem runTask_priority_dispatch_witness :
    (∀ tk' ∈ (SetTaskGraph (SetTaskGraph (initState 1) 1 ⟨[⟨100, 5, 0⟩], []⟩) 2
        ⟨[⟨200, 1, 0⟩], []⟩).ready_to_run_namespaces,
      ∀ q ∈ (((SetTaskGraph (SetTaskGraph (initState 1) 1 ⟨[⟨100, 5, 0⟩], []⟩) 2
          ⟨[⟨200, 1, 0⟩], []⟩).namespaces.lookup tk').getD default).ready_to_run_tasks,
        (⟨200, 1⟩ : PrioritizedTask).priority ≤ q.priority) ∧
    (∃ ns', (BeginRunTask (SetTaskGraph (SetTaskGraph (initState 1) 1 ⟨[⟨100, 5, 0⟩], []⟩) 2
        ⟨[⟨200, 1, 0⟩], []⟩) 0).namespaces.lookup 2 = some ns' ∧
      ns'.ready_to_run_tasks = []) ∧
    (2 ∈ (BeginRunTask (SetTaskGraph (SetTaskGraph (initState 1) 1 ⟨[⟨100, 5, 0⟩], []⟩) 2
        ⟨[⟨200, 1, 0⟩], []⟩) 0).ready_to_run_namespaces ↔
      ([] : List PrioritizedTask) ≠ []) ∧
    (⟨200, 1⟩ : PrioritizedTask).task ∈
      (RunTaskWithLockAcquired (SetTaskGraph (SetTaskGraph (initState 1) 1
        ⟨[⟨100, 5, 0⟩], []⟩) 2 ⟨[⟨200, 1, 0⟩], []⟩) 0).didRunTasks ∧
    (∃ ns'', (RunTaskWithLockAcquired (SetTaskGraph (SetTaskGraph (initState 1) 1
          ⟨[⟨100, 5, 0⟩], []⟩) 2 ⟨[⟨200, 1, 0⟩], []⟩) 0).namespaces.lookup 2 = some ns'' ∧
      ns''.completed_tasks =
        (⟨⟨[⟨200, 1, 0⟩], []⟩, [⟨200, 1⟩], [], 0⟩ : TaskNamespace).completed_tasks ++
          [(⟨200, 1⟩ : PrioritizedTask).task]) :=
  runTask_priority_dispatch
    (SetTaskGraph (SetTaskGraph (initState 1) 1 ⟨[⟨100, 5, 0⟩], []⟩) 2 ⟨[⟨200, 1, 0⟩], []⟩)
    0 2 [1] ⟨⟨[⟨200, 1, 0⟩], []⟩, [⟨200, 1⟩], [], 0⟩ ⟨200, 1⟩ []
    (by decide) (by decide) (by decide) (by decide) (by decide)
    (by decide) (by decide)

/-! ### Claims C9 and C2: the cancel-and-resubmit slip -/

theorem cancelResubmit_reachable : Reachable 1 cancelResubmitS4 := by
  have h0 : Relation.ReflTransGen SchedulerStep (initState 1) (initState 1) :=
    Relation.ReflTransGen.refl
  have h1 : Relation.ReflTransGen SchedulerStep (initState 1) cancelResubmitS1 :=
    Relation.ReflTransGen.tail h0
      (SchedulerStep.set_graph (initState 1) 1 cancelResubmitG1 (by decide))
  have h2 : Relation.ReflTransGen SchedulerStep (initState 1) cancelResubmitS2 :=
    Relation.ReflTransGen.tail h1
      (SchedulerStep.set_graph cancelResubmitS1 1 cancelResubmitG2 (by decide))
  have h3 : Relation.ReflTransGen SchedulerStep (initState 1) cancelResubmitS3 :=
    Relation.ReflTransGen.tail h2
      (SchedulerStep.set_graph cancelResubmitS2 1 cancelResubmitG3 (by decide))
  have h4 : Relation.ReflTransGen SchedulerStep (initState 1)
      (BeginRunTask cancelResubmitS3 0) :=
    Relation.ReflTransGen.tail h3 (SchedulerStep.begin_run cancelResubmitS3 0)
  exact Relation.ReflTransGen.tail h4
    (SchedulerStep.finish_run (BeginRunTask cancelResubmitS3 0) 0)

/-- C9: the claim fails on the code.  In the reachable, contract-respecting
execution `cancelResubmitS4` (all submitted graphs well formed, with each
node's dependency count equal to its incoming edge count), node 11's counter
is already zero after the discount of the third submission, yet the fan-out
of task 10's completion decrements it anyway: the unsigned counter wraps
from 0 to `2^32 - 1` — exactly the underflow the source's
`DCHECK_LT(0u, dependent_node.dependencies)` asserts impossible. -/
theorem dependency_decrement_underflow :
    Reachable 1 cancelResubmitS4 ∧
    (∃ n ∈ (namespaceFor cancelResubmitS3 1).graph.nodes,
      n.task = 11 ∧ n.dependencies = 0) ∧
    (∃ n ∈ (namespaceFor cancelResubmitS4 1).graph.nodes,
      n.task = 11 ∧ n.dependencies = 4294967295) :=
  ⟨cancelResubmit_reachable, by decide, by decide⟩

/-- C2: the claimed invariant fails on the code.  In the reachable,
contract-respecting execution `cancelResubmitS4`, node 11 of the
namespace's graph has a dependencies count greater than zero (the counter
wrapped to `2^32 - 1` when task 10's fan-out decremented it at zero), while
task 11 still sits in the namespace's `ready_to_run_tasks` — so a task with
unsatisfied declared dependencies is in the ready heap. -/
theorem unsatisfied_dependencies_in_ready_heap :
    Reachable 1 cancelResubmitS4 ∧
    (∃ n ∈ (namespaceFor cancelResubmitS4 1).graph.nodes,
      0 < n.dependencies ∧
      n.task ∈ (namespaceFor cancelResubmitS4 1).ready_to_run_tasks.map
        PrioritizedTask.task) :=
  ⟨cancelResubmit_reachable, by decide⟩

/-! ### Claim C10: the ready-namespaces invariant -/

theorem schedulerInv_init (w : Nat) : SchedulerInv (initState w) := by
  refine ⟨by simp [initState], by simp [initState], ?_, ?_⟩
  · intro tk htk
    simp [initState] at htk
  · intro tk ns hl
    simp [initState, List.lookup] at hl

theorem isEmpty_false_iff (l : List PrioritizedTask) : (!l.isEmpty) = true ↔ l ≠ [] := by
  rcases l with _ | ⟨a, l⟩ <;> simp

theorem schedulerInv_set (s : RunnerState) (tok : Nat) (g : TaskGraph)
    (h : SchedulerInv s) : SchedulerInv (SetTaskGraph s tok g) := by
  obtain ⟨hkeys, hnd, hmem, hrev⟩ := h
  have hkeys' := SetTaskGraph_keys_nodup tok g hkeys
  have hperm := MakeNamespaceHeap_perm (SetTaskGraph s tok g).namespaces
    (((SetTaskGraph s tok g).namespaces.filter
      (fun q => !q.2.ready_to_run_tasks.isEmpty)).map Prod.fst)
  have hrtrn : (SetTaskGraph s tok g).ready_to_run_namespaces =
      MakeNamespaceHeap (SetTaskGraph s tok g).namespaces
        (((SetTaskGraph s tok g).namespaces.filter
          (fun q => !q.2.ready_to_run_tasks.isEmpty)).map Prod.fst) := rfl
  refine ⟨hkeys', ?_, ?_, ?_⟩
  · rw [hrtrn]
    refine hperm.symm.nodup ?_
    refine List.Nodup.sublist (List.Sublist.map Prod.fst (List.filter_sublist _)) hkeys'
  · intro tk htk
    rw [hrtrn] at htk
    have := hperm.mem_iff.mp htk
    rcases List.mem_map.mp this with ⟨⟨k, v⟩, hfil, hfst⟩
    subst hfst
    have hmem' := List.mem_of_mem_filter hfil
    have hpred := List.of_mem_filter hfil
    refine ⟨v, lookup_eq_some_of_mem hkeys' hmem', ?_⟩
    exact (isEmpty_false_iff _).mp hpred
  · intro tk ns hl hne
    rw [hrtrn]
    rw [hperm.mem_iff]
    refine List.mem_map.mpr ⟨(tk, ns), ?_, rfl⟩
    refine List.mem_filter.mpr ⟨mem_of_lookup_eq_some hl, ?_⟩
    exact (isEmpty_false_iff _).mpr hne

theorem schedulerInv_begin (s : RunnerState) (i : Nat) (h : SchedulerInv s) :
    SchedulerInv (BeginRunTask s i) := by
  obtain ⟨hkeys, hnd, hmem, hrev⟩ := h
  rcases hr : s.ready_to_run_namespaces with _ | ⟨tk, rest⟩
  · rw [show BeginRunTask s i = s by rw [BeginRunTask, hr]]
    exact ⟨hkeys, hnd, hmem, hrev⟩
  rcases hns : s.namespaces.lookup tk with _ | ns
  · rw [show BeginRunTask s i = s by simp only [BeginRunTask, hr, hns]]
    exact ⟨hkeys, hnd, hmem, hrev⟩
  rcases hready : ns.ready_to_run_tasks with _ | ⟨p, restReady⟩
  · rw [show BeginRunTask s i = s by simp only [BeginRunTask, hr, hns, hready]]
    exact ⟨hkeys, hnd, hmem, hrev⟩
  by_cases hslot : s.running_tasks.get? i = some none
  · rw [BeginRunTask_eq hr hns hready hslot]
    rw [hr] at hnd
    have htknotin : tk ∉ rest := (List.nodup_cons.mp hnd).1
    have hrestnd : rest.Nodup := (List.nodup_cons.mp hnd).2
    refine ⟨?_, ?_, ?_, ?_⟩
    · rw [show ({ s with
        namespaces := updateNs s.namespaces tk
          { ns with
            ready_to_run_tasks := restReady
            num_running_tasks := ns.num_running_tasks + 1 }
        ready_to_run_namespaces :=
          if restReady.isEmpty then rest
          else insertTok (updateNs s.namespaces tk
            { ns with
              ready_to_run_tasks := restReady
              num_running_tasks := ns.num_running_tasks + 1 }) tk rest
        running_tasks := s.running_tasks.set i (some (tk, p.task)) } :
          RunnerState).namespaces = updateNs s.namespaces tk
          { ns with
            ready_to_run_tasks := restReady
            num_running_tasks := ns.num_running_tasks + 1 } from rfl]
      rw [map_fst_updateNs]
      exact hkeys
    · rcases hre : restReady with _ | ⟨q, l⟩
      · simp only [List.isEmpty_nil, if_pos rfl]
        exact hrestnd
      · rw [show (q :: l).isEmpty = false from rfl]
        rw [if_neg (by simp)]
        exact (insertTok_perm _ tk rest).symm.nodup hnd
    · intro tk' htk'
      rcases hre : restReady with _ | ⟨q, l⟩
      · rw [hre] at htk'
        simp only [List.isEmpty_nil, if_pos rfl] at htk'
        obtain ⟨ns2, hl2, hne2⟩ := hmem tk' (by rw [hr]; exact List.mem_cons_of_mem tk htk')
        have hne : tk' ≠ tk := fun hh => htknotin (hh ▸ htk')
        exact ⟨ns2, by rw [lookup_updateNs_ne hne]; exact hl2, hne2⟩
      · rw [hre] at htk'
        rw [show (q :: l).isEmpty = false from rfl] at htk'
        rw [if_neg (by simp)] at htk'
        rcases List.mem_cons.mp ((insertTok_perm _ tk rest).mem_iff.mp htk') with rfl | hin
        · exact ⟨_, lookup_updateNs_self hns _, List.cons_ne_nil q l⟩
        · obtain ⟨ns2, hl2, hne2⟩ := hmem tk' (by rw [hr]; exact List.mem_cons_of_mem tk hin)
          have hne : tk' ≠ tk := fun hh => htknotin (hh ▸ hin)
          exact ⟨ns2, by rw [lookup_updateNs_ne hne]; exact hl2, hne2⟩
    · intro tk'' ns'' hl'' hne''
      by_cases htk : tk'' = tk
      · subst htk
        rw [show (updateNs s.namespaces tk''
            { ns with
              ready_to_run_tasks := restReady
              num_running_tasks := ns.num_running_tasks + 1 }).lookup tk'' =
          some { ns with
              ready_to_run_tasks := restReady
              num_running_tasks := ns.num_running_tasks + 1 } from
          lookup_updateNs_self hns _] at hl''
        cases hl''
        rcases hre : restReady with _ | ⟨q, l⟩
        · rw [hre] at hne''
          exact absurd rfl hne''
        · rw [show (q :: l).isEmpty = false from rfl]
          rw [if_neg (by simp)]
          exact (insertTok_perm _ tk'' rest).mem_iff.mpr (List.mem_cons_self _ _)
      · rw [lookup_updateNs_ne htk] at hl''
        have := hrev tk'' ns'' hl'' hne''
        rw [hr] at this
        rcases List.mem_cons.mp this with rfl | hin
        · exact absurd rfl htk
        · rcases hre : restReady with _ | ⟨q, l⟩
          · simp only [List.isEmpty_nil, if_pos rfl]
            exact hin
          · rw [show (q :: l).isEmpty = false from rfl]
            rw [if_neg (by simp)]
            exact (insertTok_perm _ tk rest).mem_iff.mpr (List.mem_cons_of_mem tk hin)
  · rw [show BeginRunTask s i = s by
      simp only [BeginRunTask, hr, hns, hready]
      rw [if_neg hslot]]
    exact ⟨hkeys, hnd, hmem, hrev⟩

theorem foldl_insertPT_length (l acc : List PrioritizedTask) :
    (l.foldl (fun acc p => insertPT p acc) acc).length = acc.length + l.length := by
  rw [(foldl_insertPT_perm l acc).length_eq]
  simp

theorem finishReady_ne_of_ready {ns : TaskNamespace} {t : Nat}
    (h : ns.ready_to_run_tasks ≠ []) :
    (FinishRunTaskNamespace ns t).ready_to_run_tasks ≠ [] := by
  intro hcontra
  have hl := congrArg List.length hcontra
  rw [show (FinishRunTaskNamespace ns t).ready_to_run_tasks =
    (FanOut ns.graph t).2.foldl (fun acc p => insertPT p acc) ns.ready_to_run_tasks
    from rfl, foldl_insertPT_length] at hl
  simp at hl
  exact h hl.1

theorem finishReady_ne_of_fo {ns : TaskNamespace} {t : Nat}
    (h : (FanOut ns.graph t).2 ≠ []) :
    (FinishRunTaskNamespace ns t).ready_to_run_tasks ≠ [] := by
  intro hcontra
  have hl := congrArg List.length hcontra
  rw [show (FinishRunTaskNamespace ns t).ready_to_run_tasks =
    (FanOut ns.graph t).2.foldl (fun acc p => insertPT p acc) ns.ready_to_run_tasks
    from rfl, foldl_insertPT_length] at hl
  simp at hl
  exact h hl.2

theorem schedulerInv_finish (s : RunnerState) (i : Nat) (h : SchedulerInv s) :
    SchedulerInv (FinishRunTask s i) := by
  obtain ⟨hkeys, hnd, hmem, hrev⟩ := h
  rcases hslot : s.running_tasks.get? i with _ | o
  · rw [show FinishRunTask s i = s by rw [FinishRunTask, hslot]]
    exact ⟨hkeys, hnd, hmem, hrev⟩
  rcases o with _ | ⟨tk, t⟩
  · rw [show FinishRunTask s i = s by rw [FinishRunTask, hslot]]
    exact ⟨hkeys, hnd, hmem, hrev⟩
  rcases hns : s.namespaces.lookup tk with _ | ns
  · rw [show FinishRunTask s i = s by simp only [FinishRunTask, hslot, hns]]
    exact ⟨hkeys, hnd, hmem, hrev⟩
  rw [FinishRunTask_eq hslot hns]
  have htknotin : ns.ready_to_run_tasks = [] → tk ∉ s.ready_to_run_namespaces := by
    intro hre htk
    obtain ⟨ns2, hl2, hne2⟩ := hmem tk htk
    rw [hns] at hl2
    cases hl2
    exact hne2 hre
  rcases hfo : (FanOut ns.graph t).2 with _ | ⟨fp, fl⟩
  · -- no dependent became ready: the ready-namespaces vector is untouched
    rw [if_pos (show (([] : List PrioritizedTask).isEmpty) = true from rfl)]
    simp only [List.isEmpty_nil, Bool.not_true, Bool.and_false]
    rw [if_neg (show ¬(false = true) by simp)]
    refine ⟨?_, hnd, ?_, ?_⟩
    · rw [show (updateNs s.namespaces tk (FinishRunTaskNamespace ns t)).map Prod.fst =
        s.namespaces.map Prod.fst from map_fst_updateNs _ _ _]
      exact hkeys
    · intro tk' htk'
      obtain ⟨ns2, hl2, hne2⟩ := hmem tk' htk'
      by_cases htk : tk' = tk
      · subst htk
        rw [hns] at hl2
        cases hl2
        refine ⟨FinishRunTaskNamespace ns t, lookup_updateNs_self hns _, ?_⟩
        exact finishReady_ne_of_ready hne2
      · exact ⟨ns2, by rw [lookup_updateNs_ne htk]; exact hl2, hne2⟩
    · intro tk'' ns'' hl'' hne''
      by_cases htk : tk'' = tk
      · subst htk
        rw [lookup_updateNs_self hns _] at hl''
        cases hl''
        refine hrev tk'' ns hns ?_
        intro hre
        have : (FinishRunTaskNamespace ns t).ready_to_run_tasks = [] := by
          rw [show (FinishRunTaskNamespace ns t).ready_to_run_tasks =
            (FanOut ns.graph t).2.foldl (fun acc p => insertPT p acc)
              ns.ready_to_run_tasks from rfl, hfo, hre]
          rfl
        exact hne'' this
      · rw [lookup_updateNs_ne htk] at hl''
        exact hrev tk'' ns'' hl'' hne''
  · -- at least one dependent became ready
    have hfone : (FanOut ns.graph t).2 ≠ [] := by
      rw [hfo]
      exact List.cons_ne_nil fp fl
    rw [if_neg (show ¬(((fp :: fl).isEmpty) = true) by simp)]
    simp only [List.isEmpty_cons, Bool.not_false, Bool.and_true]
    have hperm : ∀ mid, (MakeNamespaceHeap
        (updateNs s.namespaces tk (FinishRunTaskNamespace ns t)) mid).Perm mid :=
      fun mid => MakeNamespaceHeap_perm _ mid
    rcases hre : ns.ready_to_run_tasks with _ | ⟨rp, rl⟩
    · -- the namespace's ready heap was empty: it is appended
      rw [if_pos (show (([] : List PrioritizedTask).isEmpty) = true from rfl)]
      have htknot : tk ∉ s.ready_to_run_namespaces := htknotin hre
      refine ⟨?_, ?_, ?_, ?_⟩
      · rw [show (updateNs s.namespaces tk (FinishRunTaskNamespace ns t)).map Prod.fst =
          s.namespaces.map Prod.fst from map_fst_updateNs _ _ _]
        exact hkeys
      · refine (hperm _).symm.nodup ?_
        rw [List.nodup_append]
        exact ⟨hnd, List.nodup_singleton tk, by
          intro x hx hx'
          simp only [List.mem_singleton] at hx'
          subst hx'
          exact htknot hx⟩
      · intro tk' htk'
        have htk'mid := (hperm _).mem_iff.mp htk'
        rcases List.mem_append.mp htk'mid with hin | hin
        · obtain ⟨ns2, hl2, hne2⟩ := hmem tk' hin
          by_cases htk : tk' = tk
          · subst htk
            exact absurd hin htknot
          · exact ⟨ns2, by rw [lookup_updateNs_ne htk]; exact hl2, hne2⟩
        · simp only [List.mem_singleton] at hin
          subst hin
          refine ⟨FinishRunTaskNamespace ns t, lookup_updateNs_self hns _, ?_⟩
          exact finishReady_ne_of_fo hfone
      · intro tk'' ns'' hl'' hne''
        rw [(hperm _).mem_iff]
        by_cases htk : tk'' = tk
        · subst htk
          exact List.mem_append.mpr (Or.inr (List.mem_singleton.mpr rfl))
        · rw [lookup_updateNs_ne htk] at hl''
          exact List.mem_append.mpr (Or.inl (hrev tk'' ns'' hl'' hne''))
    · -- the namespace's ready heap was already non-empty: it was already listed
      rw [if_neg (show ¬(((rp :: rl).isEmpty) = true) by simp)]
      refine ⟨?_, ?_, ?_, ?_⟩
      · rw [show (updateNs s.namespaces tk (FinishRunTaskNamespace ns t)).map Prod.fst =
          s.namespaces.map Prod.fst from map_fst_updateNs _ _ _]
        exact hkeys
      · exact (hperm _).symm.nodup hnd
      · intro tk' htk'
        have hin := (hperm _).mem_iff.mp htk'
        obtain ⟨ns2, hl2, hne2⟩ := hmem tk' hin
        by_cases htk : tk' = tk
        · subst htk
          rw [hns] at hl2
          cases hl2
          refine ⟨FinishRunTaskNamespace ns t, lookup_updateNs_self hns _, ?_⟩
          exact finishReady_ne_of_ready hne2
        · exact ⟨ns2, by rw [lookup_updateNs_ne htk]; exact hl2, hne2⟩
      · intro tk'' ns'' hl'' hne''
        rw [(hperm _).mem_iff]
        by_cases htk : tk'' = tk
        · subst htk
          refine hrev tk'' ns hns ?_
          rw [hre]
          exact List.cons_ne_nil rp rl
        · rw [lookup_updateNs_ne htk] at hl''
          exact hrev tk'' ns'' hl'' hne''

theorem schedulerInv_collect (s : RunnerState) (tok : Nat) (h : SchedulerInv s) :
    SchedulerInv (CollectCompletedTasks s tok).1 := by
  obtain ⟨hkeys, hnd, hmem, hrev⟩ := h
  rcases hl : s.namespaces.lookup tok with _ | ns
  · rw [show (CollectCompletedTasks s tok).1 = s by rw [CollectCompletedTasks, hl]]
    exact ⟨hkeys, hnd, hmem, hrev⟩
  by_cases hfin : HasFinishedRunningTasksInNamespace { ns with completed_tasks := [] } = true
  · have hre : ns.ready_to_run_tasks = [] := by
      rw [HasFinishedRunningTasksInNamespace] at hfin
      simp only [Bool.and_eq_true, List.isEmpty_iff] at hfin
      exact hfin.1.1
    have htoknot : tok ∉ s.ready_to_run_namespaces := by
      intro htk
      obtain ⟨ns2, hl2, hne2⟩ := hmem tok htk
      rw [hl] at hl2
      cases hl2
      exact hne2 hre
    have hst : (CollectCompletedTasks s tok).1 =
        { s with namespaces := s.namespaces.eraseP (fun q => q.1 == tok) } := by
      simp only [CollectCompletedTasks, hl]
      rw [if_pos hfin]
    rw [hst]
    refine ⟨keys_erasePKey_nodup hkeys, hnd, ?_, ?_⟩
    · intro tk htk
      obtain ⟨ns2, hl2, hne2⟩ := hmem tk htk
      have hne : tk ≠ tok := fun hh => htoknot (hh ▸ htk)
      exact ⟨ns2, by rw [lookup_erasePKey_ne hne]; exact hl2, hne2⟩
    · intro tk'' ns'' hl'' hne''
      by_cases htk : tk'' = tok
      · subst htk
        rw [lookup_erasePKey_self hkeys] at hl''
        cases hl''
      · rw [lookup_erasePKey_ne htk] at hl''
        exact hrev tk'' ns'' hl'' hne''
  · have hst : (CollectCompletedTasks s tok).1 =
        { s with namespaces := updateNs s.namespaces tok { ns with completed_tasks := [] } } := by
      simp only [CollectCompletedTasks, hl]
      rw [if_neg hfin]
    rw [hst]
    refine ⟨?_, hnd, ?_, ?_⟩
    · rw [show (updateNs s.namespaces tok { ns with completed_tasks := [] }).map Prod.fst =
        s.namespaces.map Prod.fst from map_fst_updateNs _ _ _]
      exact hkeys
    · intro tk htk
      obtain ⟨ns2, hl2, hne2⟩ := hmem tk htk
      by_cases htk2 : tk = tok
      · subst htk2
        rw [hl] at hl2
        cases hl2
        exact ⟨{ ns with completed_tasks := [] }, lookup_updateNs_self hl _, hne2⟩
      · exact ⟨ns2, by rw [lookup_updateNs_ne htk2]; exact hl2, hne2⟩
    · intro tk'' ns'' hl'' hne''
      by_cases htk2 : tk'' = tok
      · subst htk2
        rw [lookup_updateNs_self hl _] at hl''
        cases hl''
        exact hrev tk'' ns hl hne''
      · rw [lookup_updateNs_ne htk2] at hl''
        exact hrev tk'' ns'' hl'' hne''

theorem schedulerInv_reachable {w : Nat} {s : RunnerState}
    (h : Relation.ReflTransGen SchedulerStep (initState w) s) : SchedulerInv s := by
  induction h with
  | refl => exact schedulerInv_init w
  | tail hr hstep ih =>
    cases hstep with
    | set_graph tok g hv => exact schedulerInv_set _ tok g ih
    | begin_run i => exact schedulerInv_begin _ i ih
    | finish_run i => exact schedulerInv_finish _ i ih
    | collect tok => exact schedulerInv_collect _ tok ih

/-- C10: in every reachable state (states between lock-held operations,
including those where workers are mid-run with the lock released), a
namespace is in `ready_to_run_namespaces` if and only if its
`ready_to_run_tasks` heap is non-empty, and the vector holds each namespace
at most once.  Proved by induction over the scheduler steps: the full
rebuild of `SetTaskGraph`, the push-back-iff-non-empty of the dispatch
half, the was-empty check of the completion fan-out, and the
erase-only-when-drained of `CollectCompletedTasks` each re-establish it. -/
theorem ready_namespaces_iff_nonempty_ready (w : Nat) (s : RunnerState)
    (h : Reachable w s) :
    (∀ tk ns, s.namespaces.lookup tk = some ns →
      (tk ∈ s.ready_to_run_namespaces ↔ ns.ready_to_run_tasks ≠ [])) ∧
    s.ready_to_run_namespaces.Nodup := by
  obtain ⟨hkeys, hnd, hmem, hrev⟩ := schedulerInv_reachable h
  refine ⟨?_, hnd⟩
  intro tk ns hl
  constructor
  · intro htk
    obtain ⟨ns2, hl2, hne2⟩ := hmem tk htk
    rw [hl] at hl2
    cases hl2
    exact hne2
  · intro hne
    exact hrev tk ns hl hne

theorem ready_namespaces_iff_nonempty_ready_witness :
    (∀ tk ns, (SetTaskGraph (initState 1) 5 ⟨[⟨42, 0, 0⟩], []⟩).namespaces.lookup tk =
        some ns →
      (tk ∈ (SetTaskGraph (initState 1) 5
          ⟨[⟨42, 0, 0⟩], []⟩).ready_to_run_namespaces ↔
        ns.ready_to_run_tasks ≠ [])) ∧
    (SetTaskGraph (initState 1) 5 ⟨[⟨42, 0, 0⟩], []⟩).ready_to_run_namespaces.Nodup :=
  ready_namespaces_iff_nonempty_ready 1 (SetTaskGraph (initState 1) 5 ⟨[⟨42, 0, 0⟩], []⟩)
    (Relation.ReflTransGen.tail Relation.ReflTransGen.refl
      (SchedulerStep.set_graph (initState 1) 5 ⟨[⟨42, 0, 0⟩], []⟩ (by decide)))

end TaskGraphRunnerModel
